import Mathlib

/-!
# ArduinoTapTempo (micros fork): a shallow embedding of `src/ArduinoTapTempo.cpp`

Conventions of the embedding.

* `unsigned long` values are natural numbers; every `+`, `-`, `*` the source performs on
  them is taken modulo `Header.W` (`uadd`, `usub`, `umul`).
* `float` and `double` values are exact rationals: rounding of floating-point operations
  is not modelled, every floating operation is the exact one.
* The counters `tapsInChain`, `tapDurationIndex`, `totalTapValues`, `beatsUntilChainReset`
  only ever hold non-negative values (they start non-negative and are changed by `++`,
  `= 0` or a setter that clamps to `≥ 2`): they are natural numbers, the setters take the
  `int` argument as an integer, and `int amount` of `getAverageTapDuration` is an integer.
* Undefined behaviour (division by zero, an array access outside `tapDurations`, a
  floating value converted to an `unsigned long` that cannot hold it) is the result `none`.
* `micros()` is an argument `ms` of `update`.
* The header `ArduinoTapTempoMicros.h` is not among the sources: what the code needs from
  it (the width of `unsigned long`, `MAX_TAP_VALUES`, `sixtySeconds`, `microsRollover`)
  is the parameter `Header`.
-/

/-- A C arithmetic value whose type decides what `/` and `*` mean: an `unsigned long`
or a floating value. -/
inductive CNum where
  | integral (n : Nat)
  | floating (q : ℚ)

/-- The numeric value of a `CNum`, as the conversion to `double` gives it. -/
def CNum.toRat : CNum → ℚ
  | .integral n => (n : ℚ)
  | .floating q => q

/-- The quotient `c / ms` for an `unsigned long ms`: integer division when `c` is
integral, floating division otherwise (`ms ≠ 0` is checked by the caller). -/
def CNum.divULong : CNum → Nat → CNum
  | .integral n, ms => .integral (n / ms)
  | .floating q, ms => .floating (q / (ms : ℚ))

/-- The product `c * k` for an `int` literal `k`: taken in `unsigned long` (modulo `W`)
when `c` is integral, floating otherwise. -/
def CNum.mulLit (W : Nat) : CNum → Nat → CNum
  | .integral n, k => .integral ((n * k) % W)
  | .floating q, k => .floating (q * (k : ℚ))

/-- What the source takes from the header `ArduinoTapTempoMicros.h`. -/
structure Header where
  /-- Modulus of `unsigned long` arithmetic, `ULONG_MAX + 1`. -/
  W : Nat
  /-- Size of the array `tapDurations`. -/
  MAX_TAP_VALUES : Nat
  /-- The constant `sixtySeconds`, with its type. -/
  sixtySeconds : CNum
  /-- The constant `microsRollover`. -/
  microsRollover : Nat

/-- Modelled from the spec: the header is absent; section 6 of the spec gives
`MAX_TAP_VALUES = 20`, the constant `60_000_000` used as a real number
(`60_000_000.0 / bpm_f`) and the clock modulus `2^32`; `microsRollover` is taken as the
largest `unsigned long`. -/
def Header.std : Header :=
  { W := 4294967296, MAX_TAP_VALUES := 20, sixtySeconds := .floating 60000000,
    microsRollover := 4294967295 }

/-- Unsigned addition `a + b`. -/
def uadd (W a b : Nat) : Nat := (a + b) % W

/-- Unsigned subtraction `a - b`. -/
def usub (W a b : Nat) : Nat := (a + (W - b % W)) % W

/-- Unsigned multiplication `a * b`. -/
def umul (W a b : Nat) : Nat := (a * b) % W

/-- Conversion of an `int` to `unsigned long`. -/
def toULong (W : Nat) (x : Int) : Nat := (x % (W : Int)).toNat

/-- Truncation toward zero of a floating value (the integral part `modf` and `fmod` use). -/
def ctrunc (x : ℚ) : ℤ := if 0 ≤ x then ⌊x⌋ else ⌈x⌉

/-- The C function `fmod(x, y)` for `y ≠ 0`: `x - y * trunc(x / y)`. -/
def fmod (x y : ℚ) : ℚ := x - y * (ctrunc (x / y) : ℚ)

/-- The expression `floor((double)(x + 0.5))`. -/
def floorHalf (x : CNum) : ℚ := ((⌊x.toRat + 1 / 2⌋ : ℤ) : ℚ)

/-- The object state: the data members the source reads and writes. -/
structure ArduinoTapTempo where
  skippedTapDetection : Bool
  skippedTapThresholdLow : ℚ
  skippedTapThresholdHigh : ℚ
  beatsUntilChainReset : Nat
  totalTapValues : Nat
  sigFigs : Nat
  minBeatLengthMS : Nat
  maxBeatLengthMS : Nat
  bpm : ℚ
  beatLengthMS : Nat
  beatFract : ℚ
  microsSinceReset : Nat
  microsSinceResetOld : Nat
  lastTapMS : Nat
  lastResetMS : Nat
  buttonDownOld : Bool
  tapsInChain : Nat
  tapDurationIndex : Nat
  tapDurations : List Nat
  lastTapSkipped : Bool

namespace ArduinoTapTempo

/-- Modelled from the spec: the member initialisers are in the absent header; the
configuration defaults are those of the table in section 6 (`min_beat_us ≈ 250_000`,
`max_beat_us ≈ 3_000_000`), the chain is empty, and the initial beat length and BPM, which
the spec does not give, are the arguments. -/
def defaults (beatLength : Nat) (bpm0 : ℚ) : ArduinoTapTempo :=
  { skippedTapDetection := true
    skippedTapThresholdLow := 7 / 4
    skippedTapThresholdHigh := 11 / 4
    beatsUntilChainReset := 4
    totalTapValues := 5
    sigFigs := 2
    minBeatLengthMS := 250000
    maxBeatLengthMS := 3000000
    bpm := bpm0
    beatLengthMS := beatLength
    beatFract := 0
    microsSinceReset := 0
    microsSinceResetOld := 0
    lastTapMS := 0
    lastResetMS := 0
    buttonDownOld := false
    tapsInChain := 0
    tapDurationIndex := 0
    tapDurations := List.replicate 20 0
    lastTapSkipped := false }

/-- `setSkippedTapThresholdLow(float threshold)`. -/
def setSkippedTapThresholdLow (s : ArduinoTapTempo) (threshold : ℚ) : ArduinoTapTempo :=
  if threshold ≥ 1 ∧ threshold ≤ 2 then { s with skippedTapThresholdLow := threshold }
  else if threshold < 1 then { s with skippedTapThresholdLow := 1 }
  else { s with skippedTapThresholdLow := 2 }

/-- `setSkippedTapThresholdHigh(float threshold)`. -/
def setSkippedTapThresholdHigh (s : ArduinoTapTempo) (threshold : ℚ) : ArduinoTapTempo :=
  if threshold ≥ 2 ∧ threshold ≤ 4 then { s with skippedTapThresholdHigh := threshold }
  else if threshold < 2 then { s with skippedTapThresholdHigh := 2 }
  else { s with skippedTapThresholdHigh := 4 }

/-- `getBPM()`. -/
def getBPM (s : ArduinoTapTempo) : ℚ := s.bpm

/-- `getBeatLength()`. -/
def getBeatLength (s : ArduinoTapTempo) : Nat := s.beatLengthMS

/-- `getBeatFract()`. -/
def getBeatFract (s : ArduinoTapTempo) : ℚ := s.beatFract

/-- `setSigFigs(unsigned short setSigFigs)`. -/
def setSigFigs (s : ArduinoTapTempo) (setSigFigs : Nat) : ArduinoTapTempo :=
  if setSigFigs < 4 then { s with sigFigs := setSigFigs } else { s with sigFigs := 3 }

/-- `setBPM(float setBpm)`: `modf` splits `sixtySeconds / setBpm`; the integral part is
converted to `unsigned long`, which is defined only when it lies in `[0, W)`. -/
def setBPM_float (hd : Header) (s : ArduinoTapTempo) (setBpm : ℚ) : Option ArduinoTapTempo :=
  if setBpm = 0 then none
  else
    let q : ℚ := hd.sixtySeconds.toRat / setBpm
    let tempMS : ℤ := ctrunc q
    if 0 ≤ tempMS ∧ tempMS < (hd.W : ℤ) then
      some { s with bpm := setBpm, beatFract := q - (tempMS : ℚ), beatLengthMS := tempMS.toNat }
    else none

/-- The value `setBPM(unsigned long ms)` assigns to `bpm`, by the `switch` on `sigFigs`. -/
def roundedBPM (hd : Header) (sigFigs ms : Nat) : ℚ :=
  match sigFigs with
  | 0 => floorHalf (hd.sixtySeconds.divULong ms)
  | 1 => floorHalf ((hd.sixtySeconds.divULong ms).mulLit hd.W 10) / 10
  | 2 => floorHalf ((hd.sixtySeconds.divULong ms).mulLit hd.W 100) / 100
  | 3 => floorHalf ((hd.sixtySeconds.divULong ms).mulLit hd.W 1000) / 1000
  | _ => floorHalf (hd.sixtySeconds.divULong ms)

/-- `setBPM(unsigned long ms)`. -/
def setBPM_ulong (hd : Header) (s : ArduinoTapTempo) (ms : Nat) : Option ArduinoTapTempo :=
  if ms = 0 then none else some { s with bpm := roundedBPM hd s.sigFigs ms }

/-- `onBeat()`: with `beatLengthMS = 0` both `fmod` are NaN and `<` is false. -/
def onBeat (s : ArduinoTapTempo) : Bool :=
  if s.beatLengthMS = 0 then false
  else decide (fmod (s.microsSinceReset : ℚ) (s.beatLengthMS : ℚ)
                < fmod (s.microsSinceResetOld : ℚ) (s.beatLengthMS : ℚ))

/-- `isChainActive(unsigned long ms)`. -/
def isChainActive (hd : Header) (s : ArduinoTapTempo) (ms : Nat) : Bool :=
  decide (uadd hd.W s.lastTapMS s.maxBeatLengthMS > ms)
    && decide (uadd hd.W s.lastTapMS (umul hd.W s.beatLengthMS s.beatsUntilChainReset) > ms)

/-- `beatProgress()`: with `beatLengthMS = 0` the quotient is not a number. -/
def beatProgress (s : ArduinoTapTempo) : Option ℚ :=
  if s.beatLengthMS = 0 then none
  else some (fmod ((s.microsSinceReset : ℚ) / (s.beatLengthMS : ℚ)) 1)

/-- The loop `for (i = 0; i < n; i++) tapDurations[i] = 0;` of `resetTapChain`. -/
def zeroFirst : Nat → List Nat → List Nat
  | 0, ds => ds
  | _ + 1, [] => []
  | n + 1, _ :: ds => 0 :: zeroFirst n ds

/-- `resetTapChain(unsigned long ms)`: the loop writes outside the array when
`totalTapValues` exceeds its size. -/
def resetTapChain (s : ArduinoTapTempo) (ms : Nat) : Option ArduinoTapTempo :=
  if s.totalTapValues ≤ s.tapDurations.length then
    some { s with tapsInChain := 0, tapDurationIndex := 0, lastResetMS := ms,
                  tapDurations := zeroFirst s.totalTapValues s.tapDurations }
  else none

/-- The loop `for (i = 0; i < amount; i++) runningTotalMS += tapDurations[i];` of
`getAverageTapDuration`, started with the running total `acc`. -/
def sumLoop (W : Nat) : Nat → Nat → List Nat → Option Nat
  | acc, 0, _ => some acc
  | _, _ + 1, [] => none
  | acc, n + 1, d :: ds => sumLoop W (uadd W acc d) n ds

/-- `getAverageTapDuration()`. -/
def getAverageTapDuration (hd : Header) (s : ArduinoTapTempo) : Option Nat :=
  let amount0 : ℤ := (s.tapsInChain : ℤ) - 1
  let amount : ℤ := if amount0 > (s.totalTapValues : ℤ) then (s.totalTapValues : ℤ) else amount0
  (sumLoop hd.W 0 amount.toNat s.tapDurations).bind fun runningTotalMS =>
    if toULong hd.W amount = 0 then none
    else
      let avgTapDurationMS := runningTotalMS / toULong hd.W amount
      if avgTapDurationMS < s.minBeatLengthMS then some s.minBeatLengthMS
      else some avgTapDurationMS

/-- The interval `addTapToChain` measures (the `//rollover check`). -/
def measuredDuration (hd : Header) (s : ArduinoTapTempo) (ms : Nat) : Nat :=
  if ms > s.lastTapMS then usub hd.W ms s.lastTapMS
  else uadd hd.W (uadd hd.W (usub hd.W hd.microsRollover s.lastResetMS) 1) ms

/-- The condition of the missed-beat `if` of `addTapToChain`, with `tapsInChain` already
incremented. -/
def skipDetected (s : ArduinoTapTempo) (duration : Nat) : Bool :=
  s.skippedTapDetection
    && decide (s.tapsInChain > 2)
    && !s.lastTapSkipped
    && decide ((duration : ℚ) > (s.beatLengthMS : ℚ) * s.skippedTapThresholdLow)
    && decide ((duration : ℚ) < (s.beatLengthMS : ℚ) * s.skippedTapThresholdHigh)

/-- `addTapToChain(unsigned long ms)`. -/
def addTapToChain (hd : Header) (s : ArduinoTapTempo) (ms : Nat) : Option ArduinoTapTempo :=
  let duration := measuredDuration hd s ms
  let s1 := { s with lastTapMS := ms, tapsInChain := s.tapsInChain + 1 }
  if s1.tapsInChain = 1 then some s1
  else
    let skip := skipDetected s1 duration
    let duration2 := if skip then duration / 2 else duration
    if s1.tapDurationIndex < s1.tapDurations.length then
      let s2 := { s1 with
        lastTapSkipped := skip
        tapDurations := s1.tapDurations.set s1.tapDurationIndex duration2
        tapDurationIndex :=
          if s1.tapDurationIndex + 1 = s1.totalTapValues then 0 else s1.tapDurationIndex + 1 }
      (getAverageTapDuration hd s2).bind fun avg =>
        setBPM_ulong hd { s2 with beatLengthMS := avg } avg
    else none

/-- `tap(unsigned long ms)`. -/
def tap (hd : Header) (s : ArduinoTapTempo) (ms : Nat) : Option ArduinoTapTempo :=
  if isChainActive hd s ms then addTapToChain hd s ms
  else (resetTapChain s ms).bind fun s1 => addTapToChain hd s1 ms

/-- `update(bool buttonDown)`, with `ms` the value `micros()` returns. -/
def update (hd : Header) (s : ArduinoTapTempo) (buttonDown : Bool) (ms : Nat) :
    Option ArduinoTapTempo :=
  (if buttonDown && !s.buttonDownOld then tap hd s ms else some s).bind fun s1 =>
    some { s1 with buttonDownOld := buttonDown
                   microsSinceResetOld := s1.microsSinceReset
                   microsSinceReset := usub hd.W ms s1.lastResetMS }

/-- `setBeatsUntilChainReset(int beats)`. -/
def setBeatsUntilChainReset (s : ArduinoTapTempo) (beats : ℤ) : ArduinoTapTempo :=
  let beats1 : ℤ := if beats < 2 then 2 else beats
  { s with beatsUntilChainReset := beats1.toNat }

/-- `setTotalTapValues(int total)`. -/
def setTotalTapValues (hd : Header) (s : ArduinoTapTempo) (total : ℤ) : ArduinoTapTempo :=
  let total1 : ℤ :=
    if total < 2 then 2
    else if total > (hd.MAX_TAP_VALUES : ℤ) then (hd.MAX_TAP_VALUES : ℤ) else total
  { s with totalTapValues := total1.toNat }

/-- The phase property of two successive `update` calls at times `t1` and `t2`: both
return, and with `p1`, `p2` the values of `beatProgress()` after the first and after the
second call, either `p1 ≤ p2` or exactly one multiple of `beatLengthMS`, counted from
`lastResetMS`, lies in `(t1, t2]`; and `onBeat()` after the second call holds iff some such
multiple lies in `(t1, t2]`. -/
def MonotonePhase (hd : Header) (s : ArduinoTapTempo) (b1 b2 : Bool) (t1 t2 : Nat) : Prop :=
  ∃ s1 s2 p1 p2, update hd s b1 t1 = some s1 ∧ update hd s1 b2 t2 = some s2
    ∧ beatProgress s1 = some p1 ∧ beatProgress s2 = some p2
    ∧ (p1 ≤ p2 ∨ ∃! k : ℕ, t1 < s.lastResetMS + k * s.beatLengthMS
                          ∧ s.lastResetMS + k * s.beatLengthMS ≤ t2)
    ∧ (onBeat s2 = true ↔ ∃ k : ℕ, t1 < s.lastResetMS + k * s.beatLengthMS
                                  ∧ s.lastResetMS + k * s.beatLengthMS ≤ t2)

/-- The round trip of `setBPM(float)`: the call returns, and afterwards `beatFract` lies in
`[0, 1)`, `bpm` is the argument, and `beatLengthMS + beatFract` differs from
`60_000_000 / bpm` by less than one microsecond. -/
def RoundTrip (hd : Header) (s : ArduinoTapTempo) (bpmF : ℚ) : Prop :=
  ∃ s1, setBPM_float hd s bpmF = some s1
    ∧ 0 ≤ s1.beatFract ∧ s1.beatFract < 1 ∧ s1.bpm = bpmF
    ∧ |(s1.beatLengthMS : ℚ) + s1.beatFract - 60000000 / bpmF| < 1

/-- The duration `addTapToChain` writes into `tapDurations` on a tap that is not the first
of its chain: the measured interval, halved when the missed-beat condition holds. -/
def storedDuration (hd : Header) (s : ArduinoTapTempo) (ms : Nat) : Nat :=
  if skipDetected { s with lastTapMS := ms, tapsInChain := s.tapsInChain + 1 }
      (measuredDuration hd s ms)
  then measuredDuration hd s ms / 2 else measuredDuration hd s ms

/-- The state of `addTapToChain` on a tap that is not the first of its chain, after the
duration is stored and the index advanced, before `getAverageTapDuration()` is called. -/
def afterStore (hd : Header) (s : ArduinoTapTempo) (ms : Nat) : ArduinoTapTempo :=
  { s with
    lastTapMS := ms
    tapsInChain := s.tapsInChain + 1
    lastTapSkipped := skipDetected { s with lastTapMS := ms, tapsInChain := s.tapsInChain + 1 }
      (measuredDuration hd s ms)
    tapDurations := s.tapDurations.set s.tapDurationIndex (storedDuration hd s ms)
    tapDurationIndex :=
      if s.tapDurationIndex + 1 = s.totalTapValues then 0 else s.tapDurationIndex + 1 }

/-- The duration a call of `addTapToChain` wrote, read back from the slot of
`tapDurations` the index pointed at before the call (`s` is the state before, `s1` the state
after); the first tap of a chain writes nothing. -/
def writtenBy (s s1 : ArduinoTapTempo) : List Nat :=
  if s.tapsInChain = 0 then [] else [s1.tapDurations.getD s.tapDurationIndex 0]

/-- A run of `addTapToChain` calls at the given times that also collects the durations
written, newest first; it stops at the first undefined step. -/
def addTapsLogged (hd : Header) :
    ArduinoTapTempo → List Nat → List Nat → Option (ArduinoTapTempo × List Nat)
  | s, log, [] => some (s, log)
  | s, log, t :: ts =>
    (addTapToChain hd s t).bind fun s1 => addTapsLogged hd s1 (writtenBy s s1 ++ log) ts

/-- The average over the recent durations of a chain: `resetTapChain(r)` followed by
`addTapToChain` at the times `ts` returns a state with `tapsInChain = k + 1`, where `k` is
the number of durations written, and there `getAverageTapDuration()` returns
`max(minBeatLengthMS, red S / m)` with `m = min(k, totalTapValues)` and `S` the sum of the
`m` most recently written durations. `red` is what is done to the sum before the division:
nothing in the claim of the spec, the reduction modulo `W` in the code. -/
def ChainAverage (hd : Header) (s0 : ArduinoTapTempo) (r : Nat) (ts : List Nat)
    (red : Nat → Nat) : Prop :=
  ∃ sr s1 log, resetTapChain s0 r = some sr ∧ addTapsLogged hd sr [] ts = some (s1, log)
    ∧ log.length + 1 = ts.length ∧ s1.tapsInChain = log.length + 1
    ∧ getAverageTapDuration hd s1
        = some (max s1.minBeatLengthMS
            (red (log.take (min log.length s1.totalTapValues)).sum
              / min log.length s1.totalTapValues))

/-- The ring-buffer invariant of a chain with `N` slots whose written durations are `log`
(newest first): the counters agree with the log, and the first `N` slots, read from the
write index round, are the last `N` entries of the log, oldest first, preceded by zeros
while fewer than `N` durations have been written. -/
def ChainInv (N minB : Nat) (s : ArduinoTapTempo) (log : List Nat) : Prop :=
  s.tapsInChain = log.length + 1 ∧ s.tapDurationIndex < N
    ∧ (log.length < N → s.tapDurationIndex = log.length)
    ∧ N ≤ s.tapDurations.length ∧ s.totalTapValues = N ∧ s.minBeatLengthMS = minB
    ∧ (s.tapDurations.take N).rotate s.tapDurationIndex
        = ((log ++ List.replicate N 0).take N).reverse

/-- The state of a steady chain: `i` intervals of length `p` have been stored since the
chain began at `t0` with the state `s0`; the last tap was at `t0 + i * p`, the slots
written so far all hold `p`, the configuration is that of `s0`, and the beat length is that
of `s0` before the first interval and `p` afterwards. -/
def SteadyInv (hd : Header) (s0 : ArduinoTapTempo) (t0 p i : Nat) (s : ArduinoTapTempo) :
    Prop :=
  s.lastTapMS = t0 + i * p ∧ s.tapsInChain = i + 1
    ∧ s.tapDurationIndex < s0.totalTapValues
    ∧ (i < s0.totalTapValues → s.tapDurationIndex = i)
    ∧ s.tapDurations.take (min i s0.totalTapValues)
        = List.replicate (min i s0.totalTapValues) p
    ∧ s.tapDurations.length = s0.tapDurations.length
    ∧ s.totalTapValues = s0.totalTapValues
    ∧ s.beatsUntilChainReset = s0.beatsUntilChainReset
    ∧ s.minBeatLengthMS = s0.minBeatLengthMS ∧ s.maxBeatLengthMS = s0.maxBeatLengthMS
    ∧ s.skippedTapThresholdLow = s0.skippedTapThresholdLow ∧ s.sigFigs = s0.sigFigs
    ∧ s.skippedTapDetection = s0.skippedTapDetection
    ∧ s.skippedTapThresholdHigh = s0.skippedTapThresholdHigh
    ∧ ((i = 0 ∧ s.beatLengthMS = s0.beatLengthMS)
      ∨ (1 ≤ i ∧ s.beatLengthMS = p ∧ s.bpm = roundedBPM hd s0.sigFigs p))

/-- A run of `tap` calls at the given times, stopping at the first undefined step. -/
def tapAll (hd : Header) : ArduinoTapTempo → List Nat → Option ArduinoTapTempo
  | s, [] => some s
  | s, t :: ts => (tap hd s t).bind fun s1 => tapAll hd s1 ts

/-- A run of `update` calls, each with the button level and the value of `micros()`,
stopping at the first undefined step. -/
def updateAll (hd : Header) : ArduinoTapTempo → List (Bool × Nat) → Option ArduinoTapTempo
  | s, [] => some s
  | s, (b, t) :: evs => (update hd s b t).bind fun s1 => updateAll hd s1 evs

/-- The wrap-safe comparison of the spec: a deadline `d` is later than `now` on the
`W`-periodic clock when `(d - now) mod W` lies in `(0, W/2)`. -/
def wrapSafeLater (W d now : Nat) : Bool :=
  decide (0 < usub W d now) && decide (2 * usub W d now < W)

/-- The chain-activity test as the spec states it: both deadlines `lastTapMS +
maxBeatLengthMS` and `lastTapMS + beatLengthMS * beatsUntilChainReset` are later than `ms`
under the wrap-safe comparison. -/
def isChainActiveWrapSafe (hd : Header) (s : ArduinoTapTempo) (ms : Nat) : Bool :=
  wrapSafeLater hd.W (uadd hd.W s.lastTapMS s.maxBeatLengthMS) ms
    && wrapSafeLater hd.W
        (uadd hd.W s.lastTapMS (umul hd.W s.beatLengthMS s.beatsUntilChainReset)) ms

/-- What `tap`, `addTapToChain` and `resetTapChain` leave alone: the configuration, the
size of the array, the phase counters, the remembered button level and `beatFract`. -/
def TapFrame (s s1 : ArduinoTapTempo) : Prop :=
  s1.skippedTapDetection = s.skippedTapDetection
    ∧ s1.skippedTapThresholdLow = s.skippedTapThresholdLow
    ∧ s1.skippedTapThresholdHigh = s.skippedTapThresholdHigh
    ∧ s1.beatsUntilChainReset = s.beatsUntilChainReset
    ∧ s1.totalTapValues = s.totalTapValues ∧ s1.sigFigs = s.sigFigs
    ∧ s1.minBeatLengthMS = s.minBeatLengthMS ∧ s1.maxBeatLengthMS = s.maxBeatLengthMS
    ∧ s1.tapDurations.length = s.tapDurations.length
    ∧ s1.microsSinceReset = s.microsSinceReset
    ∧ s1.microsSinceResetOld = s.microsSinceResetOld
    ∧ s1.buttonDownOld = s.buttonDownOld ∧ s1.beatFract = s.beatFract

/-- The states reachable from `s0` by calls of `update`, `tap`, `addTapToChain`,
`resetTapChain` and the setters, each call having returned. -/
inductive Reachable (hd : Header) (s0 : ArduinoTapTempo) : ArduinoTapTempo → Prop where
  | start : Reachable hd s0 s0
  | byUpdate {s s1 : ArduinoTapTempo} (b : Bool) (ms : Nat) :
      Reachable hd s0 s → update hd s b ms = some s1 → Reachable hd s0 s1
  | byTap {s s1 : ArduinoTapTempo} (ms : Nat) :
      Reachable hd s0 s → tap hd s ms = some s1 → Reachable hd s0 s1
  | byReset {s s1 : ArduinoTapTempo} (ms : Nat) :
      Reachable hd s0 s → resetTapChain s ms = some s1 → Reachable hd s0 s1
  | bySetLow {s : ArduinoTapTempo} (x : ℚ) :
      Reachable hd s0 s → Reachable hd s0 (setSkippedTapThresholdLow s x)
  | bySetHigh {s : ArduinoTapTempo} (x : ℚ) :
      Reachable hd s0 s → Reachable hd s0 (setSkippedTapThresholdHigh s x)
  | bySetSigFigs {s : ArduinoTapTempo} (x : Nat) :
      Reachable hd s0 s → Reachable hd s0 (setSigFigs s x)
  | bySetBPM {s s1 : ArduinoTapTempo} (x : ℚ) :
      Reachable hd s0 s → setBPM_float hd s x = some s1 → Reachable hd s0 s1
  | bySetBPMms {s s1 : ArduinoTapTempo} (ms : Nat) :
      Reachable hd s0 s → setBPM_ulong hd s ms = some s1 → Reachable hd s0 s1
  | byAddTap {s s1 : ArduinoTapTempo} (ms : Nat) :
      Reachable hd s0 s → addTapToChain hd s ms = some s1 → Reachable hd s0 s1
  | bySetBeats {s : ArduinoTapTempo} (x : ℤ) :
      Reachable hd s0 s → Reachable hd s0 (setBeatsUntilChainReset s x)
  | bySetTotal {s : ArduinoTapTempo} (x : ℤ) :
      Reachable hd s0 s → Reachable hd s0 (setTotalTapValues hd s x)

/-- The part of the data model that `getAverageTapDuration` relies on: `totalTapValues` is
at least 1 and at most `MAX_TAP_VALUES`, the size of `tapDurations`, and
`minBeatLengthMS` is positive. -/
def ChainWF (hd : Header) (s : ArduinoTapTempo) : Prop :=
  1 ≤ s.totalTapValues ∧ s.totalTapValues ≤ hd.MAX_TAP_VALUES
    ∧ s.tapDurations.length = hd.MAX_TAP_VALUES ∧ 0 < s.minBeatLengthMS

/-- Whether the call `addTapToChain(ms)` in the state `s` halves the measured interval:
the tap is not the first of its chain and the missed-beat condition of the `if` holds. -/
def halves (hd : Header) (s : ArduinoTapTempo) (ms : Nat) : Bool :=
  decide (0 < s.tapsInChain)
    && skipDetected { s with lastTapMS := ms, tapsInChain := s.tapsInChain + 1 }
        (measuredDuration hd s ms)

/-- The slots written since the last reset of the chain, the first
`min(tapsInChain - 1, totalTapValues)` ones, are all at least `minBeatLengthMS`. -/
def WrittenSlotsAtLeastMin (s : ArduinoTapTempo) : Prop :=
  ∀ i, i < min (s.tapsInChain - 1) s.totalTapValues →
    s.minBeatLengthMS ≤ s.tapDurations.getD i 0

/-- The state of a chain tapped every 500_000 µs from 0 after `setTotalTapValues(2)` was
called with the write index beyond 2: `j` intervals have been stored, the index is `j` and
is no longer brought back to 0, the first two slots hold 500_000 and so does the beat
length. -/
def RunawayInv (j : Nat) (s : ArduinoTapTempo) : Prop :=
  s.lastTapMS = j * 500000 ∧ s.tapsInChain = j + 1 ∧ s.tapDurationIndex = j
    ∧ s.totalTapValues = 2 ∧ s.tapDurations.take 2 = [500000, 500000]
    ∧ s.tapDurations.length = 20 ∧ s.beatLengthMS = 500000 ∧ s.beatsUntilChainReset = 4
    ∧ s.maxBeatLengthMS = 3000000 ∧ s.minBeatLengthMS = 250000
    ∧ s.skippedTapThresholdLow = 7 / 4

end ArduinoTapTempo

/-! ## Arithmetic helpers -/

theorem ctrunc_of_nonneg {x : ℚ} (hx : 0 ≤ x) : ctrunc x = ⌊x⌋ := by
  simp [ctrunc, hx]

theorem ctrunc_natCast_div (a b : ℕ) : ctrunc ((a : ℚ) / (b : ℚ)) = ((a / b : ℕ) : ℤ) := by
  rw [ctrunc_of_nonneg (by positivity), Rat.floor_natCast_div_natCast]
  norm_cast

theorem natCast_div_sub_floor (a b : ℕ) (hb : 0 < b) :
    (a : ℚ) / (b : ℚ) - ((a / b : ℕ) : ℚ) = ((a % b : ℕ) : ℚ) / (b : ℚ) := by
  have hb0 : (b : ℚ) ≠ 0 := by exact_mod_cast hb.ne'
  have h : ((a % b : ℕ) : ℚ) + (b : ℚ) * ((a / b : ℕ) : ℚ) = (a : ℚ) := by
    exact_mod_cast Nat.mod_add_div a b
  field_simp
  linarith

theorem fmod_natCast (a b : ℕ) :
    fmod (a : ℚ) (b : ℚ) = ((a % b : ℕ) : ℚ) := by
  have h : ((a % b : ℕ) : ℚ) + (b : ℚ) * ((a / b : ℕ) : ℚ) = (a : ℚ) := by
    exact_mod_cast Nat.mod_add_div a b
  unfold fmod
  rw [ctrunc_natCast_div, Int.cast_natCast]
  linarith

theorem fmod_div_one (a b : ℕ) (hb : 0 < b) :
    fmod ((a : ℚ) / (b : ℚ)) 1 = ((a % b : ℕ) : ℚ) / (b : ℚ) := by
  unfold fmod
  rw [div_one, ctrunc_natCast_div, one_mul]
  exact_mod_cast natCast_div_sub_floor a b hb

theorem usub_self (W a : Nat) (hW : 0 < W) : usub W a a = 0 := by
  unfold usub
  have h : a + (W - a % W) = W * (a / W) + W := by
    have h1 := Nat.mod_add_div a W
    have h2 : a % W < W := Nat.mod_lt a hW
    omega
  rw [h]
  simp

theorem usub_of_le (W a b : Nat) (hab : b ≤ a) (ha : a < W) : usub W a b = a - b := by
  unfold usub
  have hb : b % W = b := Nat.mod_eq_of_lt (by omega)
  rw [hb]
  have h : a + (W - b) = (a - b) + W := by omega
  rw [h, Nat.add_mod_right]
  exact Nat.mod_eq_of_lt (by omega)

theorem uadd_of_lt (W a b : Nat) (h : a + b < W) : uadd W a b = a + b :=
  Nat.mod_eq_of_lt h

theorem umul_of_lt (W a b : Nat) (h : a * b < W) : umul W a b = a * b :=
  Nat.mod_eq_of_lt h

namespace ArduinoTapTempo

/-! ## The setters -/

/-- C5: every setter clamps into its range. `setSkippedTapThresholdLow` stores
`max 1 (min 2 x)`, `setSkippedTapThresholdHigh` stores `max 2 (min 4 x)`,
`setTotalTapValues` stores `max 2 (min MAX_TAP_VALUES x)`, `setBeatsUntilChainReset`
stores `max 2 x` and `setSigFigs` stores `min 3 x`: the argument itself when it is in
range, the nearest bound otherwise; so the stored values lie in `[1, 2]`, `[2, 4]`,
`[2, MAX_TAP_VALUES]`, `[2, ∞)` and `{0, 1, 2, 3}`. -/
theorem setters_clamp (hd : Header) (s : ArduinoTapTempo) (hMAX : 2 ≤ hd.MAX_TAP_VALUES) :
    (∀ x : ℚ, (setSkippedTapThresholdLow s x).skippedTapThresholdLow = max 1 (min 2 x)
        ∧ 1 ≤ (setSkippedTapThresholdLow s x).skippedTapThresholdLow
        ∧ (setSkippedTapThresholdLow s x).skippedTapThresholdLow ≤ 2)
    ∧ (∀ x : ℚ, (setSkippedTapThresholdHigh s x).skippedTapThresholdHigh = max 2 (min 4 x)
        ∧ 2 ≤ (setSkippedTapThresholdHigh s x).skippedTapThresholdHigh
        ∧ (setSkippedTapThresholdHigh s x).skippedTapThresholdHigh ≤ 4)
    ∧ (∀ x : ℤ, ((setTotalTapValues hd s x).totalTapValues : ℤ)
          = max 2 (min (hd.MAX_TAP_VALUES : ℤ) x)
        ∧ 2 ≤ (setTotalTapValues hd s x).totalTapValues
        ∧ (setTotalTapValues hd s x).totalTapValues ≤ hd.MAX_TAP_VALUES)
    ∧ (∀ x : ℤ, ((setBeatsUntilChainReset s x).beatsUntilChainReset : ℤ) = max 2 x
        ∧ 2 ≤ (setBeatsUntilChainReset s x).beatsUntilChainReset)
    ∧ (∀ x : ℕ, (setSigFigs s x).sigFigs = min 3 x ∧ (setSigFigs s x).sigFigs ≤ 3) := by
  refine ⟨?_, ?_, ?_, ?_, ?_⟩
  · intro x
    unfold setSkippedTapThresholdLow
    by_cases h1 : x ≥ 1 ∧ x ≤ 2
    · rw [if_pos h1]
      obtain ⟨ha, hb⟩ := h1
      simp [ha, hb]
    · rw [if_neg h1]
      by_cases h2 : x < 1
      · rw [if_pos h2]
        have h3 : min 2 x = x := min_eq_right (by linarith)
        simp [h3, h2.le]
      · rw [if_neg h2]
        have h3 : 2 < x := by
          by_contra hc
          exact h1 ⟨not_lt.mp h2, not_lt.mp hc⟩
        simp [h3.le]
  · intro x
    unfold setSkippedTapThresholdHigh
    by_cases h1 : x ≥ 2 ∧ x ≤ 4
    · rw [if_pos h1]
      obtain ⟨ha, hb⟩ := h1
      simp [ha, hb]
    · rw [if_neg h1]
      by_cases h2 : x < 2
      · rw [if_pos h2]
        have h3 : min 4 x = x := min_eq_right (by linarith)
        simp [h3, h2.le]
        norm_num
      · rw [if_neg h2]
        have h3 : 4 < x := by
          by_contra hc
          exact h1 ⟨not_lt.mp h2, not_lt.mp hc⟩
        simp [h3.le]
        norm_num
  · intro x
    simp only [setTotalTapValues]
    split_ifs <;> omega
  · intro x
    simp only [setBeatsUntilChainReset]
    split_ifs <;> omega
  · intro x
    unfold setSigFigs
    split_ifs <;> simp <;> omega

/-- Witness for C5, at the standard header: 37 taps are clamped to 20, a low threshold of 3
to 2. -/
theorem setters_clamp_witness :
    (setTotalTapValues Header.std (defaults 500000 120) 37).totalTapValues = 20
    ∧ (setSkippedTapThresholdLow (defaults 500000 120) 3).skippedTapThresholdLow = 2 := by
  have h := setters_clamp Header.std (defaults 500000 120) (by decide)
  refine ⟨?_, ?_⟩
  · have h3 := (h.2.2.1 37).1
    have : ((20 : ℕ) : ℤ) = max 2 (min ((Header.std.MAX_TAP_VALUES : ℕ) : ℤ) 37) := by
      simp [Header.std]
    omega
  · rw [(h.1 3).1]
    norm_num

/-! ## BPM from a beat length -/

theorem roundedBPM_floating (hd : Header) (c : ℚ) (hc : hd.sixtySeconds = CNum.floating c)
    (sig ms : Nat) (hs : sig ≤ 3) :
    roundedBPM hd sig ms
      = ((⌊c / (ms : ℚ) * (10 : ℚ) ^ sig + 1 / 2⌋ : ℤ) : ℚ) / (10 : ℚ) ^ sig := by
  have h : sig = 0 ∨ sig = 1 ∨ sig = 2 ∨ sig = 3 := by omega
  rcases h with h | h | h | h <;> subst h <;>
    simp only [roundedBPM, hc, CNum.divULong, CNum.mulLit, floorHalf, CNum.toRat] <;>
    norm_num

/-- With an integer-typed `sixtySeconds` the quotient `sixtySeconds/ms` is truncated before
it is scaled: from `ms = 500_001` and three decimals the result is `119`, not `120`. -/
theorem roundedBPM_integral_truncates :
    roundedBPM { Header.std with sixtySeconds := CNum.integral 60000000 } 3 500001 = 119 := by
  simp only [roundedBPM, CNum.divULong, CNum.mulLit, floorHalf, CNum.toRat, Header.std]
  norm_num

/-- C6: `setBPM(unsigned long ms)` rounds half-up to `sigFigs` decimals. With `sixtySeconds`
declared as the floating constant `60_000_000`, for every `ms > 0` and `sigFigs ≤ 3` the call
stores `bpm = floor(raw * 10^sigFigs + 1/2) / 10^sigFigs` with `raw` the exact quotient
`60_000_000 / ms` and changes nothing else; from `ms = 500_001` the stored value is `120`
for `sigFigs` 0, 2 and 3. -/
theorem setBPM_ulong_rounds_half_up (hd : Header) (s : ArduinoTapTempo) (ms : Nat)
    (hc : hd.sixtySeconds = CNum.floating 60000000) (hms : 0 < ms) (hs : s.sigFigs ≤ 3) :
    setBPM_ulong hd s ms
        = some { s with bpm :=
            ((⌊(60000000 : ℚ) / (ms : ℚ) * (10 : ℚ) ^ s.sigFigs + 1 / 2⌋ : ℤ) : ℚ)
              / (10 : ℚ) ^ s.sigFigs }
    ∧ ∀ t : ArduinoTapTempo, t.sigFigs = 0 ∨ t.sigFigs = 2 ∨ t.sigFigs = 3 →
        setBPM_ulong hd t 500001 = some { t with bpm := 120 } := by
  constructor
  · simp only [setBPM_ulong, if_neg hms.ne', roundedBPM_floating hd _ hc _ _ hs]
  · intro t ht
    have hts : t.sigFigs ≤ 3 := by omega
    simp only [setBPM_ulong, roundedBPM_floating hd _ hc _ _ hts]
    have h0 : ⌊(60000000 : ℚ) / ((500001 : ℕ) : ℚ) * 10 ^ 0 + 1 / 2⌋ = 120 := by
      rw [Int.floor_eq_iff]; norm_num
    have h2 : ⌊(60000000 : ℚ) / ((500001 : ℕ) : ℚ) * 10 ^ 2 + 1 / 2⌋ = 12000 := by
      rw [Int.floor_eq_iff]; norm_num
    have h3 : ⌊(60000000 : ℚ) / ((500001 : ℕ) : ℚ) * 10 ^ 3 + 1 / 2⌋ = 120000 := by
      rw [Int.floor_eq_iff]; norm_num
    rcases ht with h | h | h <;> rw [h]
    · rw [h0]; norm_num
    · rw [h2]; norm_num
    · rw [h3]; norm_num

/-- Witness for C6: the standard header, the default state, 500_000 µs. -/
theorem setBPM_ulong_rounds_half_up_witness :
    setBPM_ulong Header.std (defaults 400000 150) 500000
      = some { defaults 400000 150 with bpm :=
          ((⌊(60000000 : ℚ) / ((500000 : ℕ) : ℚ) * (10 : ℚ) ^ 2 + 1 / 2⌋ : ℤ) : ℚ)
            / (10 : ℚ) ^ 2 } :=
  (setBPM_ulong_rounds_half_up Header.std (defaults 400000 150) 500000 rfl (by decide)
    (by decide)).1

/-! ## Phase -/

theorem beatProgress_some_of_pos (s : ArduinoTapTempo) (hB : 0 < s.beatLengthMS) :
    beatProgress s
      = some (((s.microsSinceReset % s.beatLengthMS : ℕ) : ℚ) / (s.beatLengthMS : ℚ)) := by
  simp only [beatProgress, if_neg hB.ne', fmod_div_one _ _ hB]

/-- C9: with `beatLengthMS > 0`, `beatProgress()`, the fractional part of
`microsSinceReset / beatLengthMS`, is `(microsSinceReset mod beatLengthMS) / beatLengthMS`
over exact arithmetic and lies in `[0, 1)`. -/
theorem beatProgress_eq_mod_div (s : ArduinoTapTempo) (hB : 0 < s.beatLengthMS) :
    beatProgress s
        = some (((s.microsSinceReset % s.beatLengthMS : ℕ) : ℚ) / (s.beatLengthMS : ℚ))
    ∧ 0 ≤ ((s.microsSinceReset % s.beatLengthMS : ℕ) : ℚ) / (s.beatLengthMS : ℚ)
    ∧ ((s.microsSinceReset % s.beatLengthMS : ℕ) : ℚ) / (s.beatLengthMS : ℚ) < 1 := by
  refine ⟨?_, by positivity, ?_⟩
  · exact beatProgress_some_of_pos s hB
  · have hb : (0 : ℚ) < (s.beatLengthMS : ℚ) := by exact_mod_cast hB
    rw [div_lt_one hb]
    exact_mod_cast Nat.mod_lt _ hB

/-- Witness for C9: 1_250_000 µs into 500_000 µs beats is half a beat. -/
theorem beatProgress_eq_mod_div_witness :
    beatProgress { defaults 500000 120 with microsSinceReset := 1250000 }
      = some (((1250000 % 500000 : ℕ) : ℚ) / ((500000 : ℕ) : ℚ)) :=
  (beatProgress_eq_mod_div { defaults 500000 120 with microsSinceReset := 1250000 }
    (by decide)).1

/-! ## Polling -/

theorem update_no_tap (hd : Header) (s : ArduinoTapTempo) (b : Bool) (ms : Nat)
    (h : (b && !s.buttonDownOld) = false) :
    update hd s b ms = some { s with buttonDownOld := b
                                     microsSinceResetOld := s.microsSinceReset
                                     microsSinceReset := usub hd.W ms s.lastResetMS } := by
  simp only [update, h]
  rfl

theorem update_false (hd : Header) (s : ArduinoTapTempo) (ms : Nat) :
    update hd s false ms = some { s with buttonDownOld := false
                                         microsSinceResetOld := s.microsSinceReset
                                         microsSinceReset := usub hd.W ms s.lastResetMS } :=
  rfl

theorem onBeat_iff_mod_lt (s : ArduinoTapTempo) (hB : 0 < s.beatLengthMS) :
    onBeat s = true
      ↔ s.microsSinceReset % s.beatLengthMS < s.microsSinceResetOld % s.beatLengthMS := by
  simp only [onBeat, if_neg hB.ne', fmod_natCast, decide_eq_true_eq, Nat.cast_lt]

theorem mod_lt_mod_iff_multiple (m1 m2 B : ℕ) (hB : 0 < B) (h12 : m1 ≤ m2)
    (hd : m2 - m1 < B) :
    (m2 % B < m1 % B ↔ ∃ k : ℕ, m1 < k * B ∧ k * B ≤ m2)
    ∧ (∀ k k2 : ℕ, m1 < k * B → k * B ≤ m2 → m1 < k2 * B → k2 * B ≤ m2 → k = k2) := by
  have e1 := Nat.div_add_mod m1 B
  have e2 := Nat.div_add_mod m2 B
  have l1 := Nat.mod_lt m1 hB
  have l2 := Nat.mod_lt m2 hB
  have hq : m1 / B ≤ m2 / B := Nat.div_le_div_right h12
  have hq2 : m2 / B ≤ m1 / B + 1 := by
    have : m2 / B ≤ (m1 + B) / B := Nat.div_le_div_right (by omega)
    rwa [Nat.add_div_right _ hB] at this
  have key : ∀ k : ℕ, m1 < k * B → k * B ≤ m2 → k = m1 / B + 1 := by
    intro k hk1 hk2
    have a1 : m1 / B < k := (Nat.div_lt_iff_lt_mul hB).mpr hk1
    have a2 : k ≤ m2 / B := (Nat.le_div_iff_mul_le hB).mpr hk2
    omega
  refine ⟨⟨?_, ?_⟩, ?_⟩
  · intro hlt
    refine ⟨m2 / B, ?_, Nat.div_mul_le_self m2 B⟩
    rcases Nat.lt_or_ge (m1 / B) (m2 / B) with hlt2 | hge
    · have : B * (m1 / B + 1) ≤ B * (m2 / B) := Nat.mul_le_mul_left B hlt2
      rw [Nat.mul_comm (m2 / B) B]
      rw [Nat.mul_add, Nat.mul_one] at this
      omega
    · have hqe : m1 / B = m2 / B := le_antisymm hq hge
      rw [hqe] at e1
      omega
  · rintro ⟨k, hk1, hk2⟩
    have hk := key k hk1 hk2
    have a2 : k ≤ m2 / B := (Nat.le_div_iff_mul_le hB).mpr hk2
    have : B * (m1 / B + 1) ≤ B * (m2 / B) := Nat.mul_le_mul_left B (by omega)
    rw [Nat.mul_add, Nat.mul_one] at this
    omega
  · intro k k2 h1 h2 h3 h4
    rw [key k h1 h2, key k2 h3 h4]


/-- C10: an `update` with the button not pressed returns, and changes only
`microsSinceReset`, `microsSinceResetOld` and `buttonDownOld`; so on two successive such
calls, on the first as on the second, `bpm`, `beatLengthMS` and `tapsInChain` (and every
other member) are unchanged. -/
theorem update_not_pressed (hd : Header) (s : ArduinoTapTempo) (ms ms2 : Nat) :
    ∃ s1 s2, update hd s false ms = some s1 ∧ update hd s1 false ms2 = some s2
      ∧ s1 = { s with buttonDownOld := false
                      microsSinceResetOld := s.microsSinceReset
                      microsSinceReset := usub hd.W ms s.lastResetMS }
      ∧ s2 = { s1 with buttonDownOld := false
                       microsSinceResetOld := s1.microsSinceReset
                       microsSinceReset := usub hd.W ms2 s1.lastResetMS }
      ∧ s1.bpm = s.bpm ∧ s1.beatLengthMS = s.beatLengthMS ∧ s1.tapsInChain = s.tapsInChain
      ∧ s2.bpm = s.bpm ∧ s2.beatLengthMS = s.beatLengthMS ∧ s2.tapsInChain = s.tapsInChain :=
  ⟨_, _, rfl, rfl, rfl, rfl, rfl, rfl, rfl, rfl, rfl, rfl⟩

/-! ## A tap on an inactive chain -/

theorem length_zeroFirst (n : Nat) (ds : List Nat) : (zeroFirst n ds).length = ds.length := by
  induction n generalizing ds with
  | zero => rfl
  | succ n ih =>
    cases ds with
    | nil => rfl
    | cons d ds => simp [zeroFirst, ih]

theorem take_zeroFirst (n : Nat) (ds : List Nat) (h : n ≤ ds.length) :
    (zeroFirst n ds).take n = List.replicate n 0 := by
  induction n generalizing ds with
  | zero => rfl
  | succ n ih =>
    cases ds with
    | nil => simp at h
    | cons d ds =>
      simp only [List.length_cons, Nat.add_le_add_iff_right] at h
      simp [zeroFirst, ih ds h, List.replicate_succ]

theorem drop_zeroFirst (n : Nat) (ds : List Nat) :
    (zeroFirst n ds).drop n = ds.drop n := by
  induction n generalizing ds with
  | zero => rfl
  | succ n ih =>
    cases ds with
    | nil => rfl
    | cons d ds => simp [zeroFirst, ih]

theorem isChainActive_false_of_deadline_passed (hd : Header) (s : ArduinoTapTempo) (ms : Nat)
    (hw1 : s.lastTapMS + s.maxBeatLengthMS < hd.W)
    (hw2 : s.lastTapMS + s.beatLengthMS * s.beatsUntilChainReset < hd.W)
    (h : ms ≥ s.lastTapMS + s.maxBeatLengthMS
      ∨ ms ≥ s.lastTapMS + s.beatLengthMS * s.beatsUntilChainReset) :
    isChainActive hd s ms = false := by
  have h3 : s.beatLengthMS * s.beatsUntilChainReset < hd.W := by omega
  simp only [isChainActive, uadd_of_lt _ _ _ hw1, umul_of_lt _ _ _ h3, uadd_of_lt _ _ _ hw2]
  rcases h with h | h
  · simp [Nat.not_lt.mpr h]
  · simp [Nat.not_lt.mpr h]

theorem tap_inactive (hd : Header) (s : ArduinoTapTempo) (ms : Nat)
    (hN : s.totalTapValues ≤ s.tapDurations.length)
    (hin : isChainActive hd s ms = false) :
    tap hd s ms = some { s with tapsInChain := 1, tapDurationIndex := 0, lastResetMS := ms
                                lastTapMS := ms
                                tapDurations := zeroFirst s.totalTapValues s.tapDurations } := by
  simp [tap, hin, resetTapChain, hN, addTapToChain]

theorem update_rising_inactive (hd : Header) (s : ArduinoTapTempo) (ms : Nat)
    (hN : s.totalTapValues ≤ s.tapDurations.length)
    (hedge : s.buttonDownOld = false)
    (hin : isChainActive hd s ms = false) :
    update hd s true ms
      = some { s with tapsInChain := 1, tapDurationIndex := 0, lastResetMS := ms
                      lastTapMS := ms
                      tapDurations := zeroFirst s.totalTapValues s.tapDurations
                      buttonDownOld := true
                      microsSinceResetOld := s.microsSinceReset
                      microsSinceReset := usub hd.W ms ms } := by
  simp only [update, hedge, tap_inactive hd s ms hN hin]
  rfl

/-- C3: a rising-edge `update` at a time `ms` at which the chain is not active
(`ms ≥ lastTapMS + maxBeatLengthMS` or `ms ≥ lastTapMS + beatLengthMS * beatsUntilChainReset`,
none of these sums wrapping) returns and leaves `tapsInChain = 1`, `tapDurationIndex = 0`,
the first `totalTapValues` durations zero, `lastResetMS = lastTapMS = ms`,
`microsSinceReset = 0`, and `beatLengthMS` and `bpm` as they were; with a positive beat
length `beatProgress()` is then `0`. -/
theorem lone_tap_is_phase_reset (hd : Header) (s : ArduinoTapTempo) (ms : Nat)
    (hN : s.totalTapValues ≤ s.tapDurations.length)
    (hedge : s.buttonDownOld = false)
    (hms : ms < hd.W)
    (hw1 : s.lastTapMS + s.maxBeatLengthMS < hd.W)
    (hw2 : s.lastTapMS + s.beatLengthMS * s.beatsUntilChainReset < hd.W)
    (h : ms ≥ s.lastTapMS + s.maxBeatLengthMS
      ∨ ms ≥ s.lastTapMS + s.beatLengthMS * s.beatsUntilChainReset) :
    ∃ s1, update hd s true ms = some s1
      ∧ s1.tapsInChain = 1 ∧ s1.tapDurationIndex = 0
      ∧ s1.tapDurations.take s1.totalTapValues = List.replicate s1.totalTapValues 0
      ∧ s1.lastResetMS = ms ∧ s1.lastTapMS = ms ∧ s1.microsSinceReset = 0
      ∧ s1.beatLengthMS = s.beatLengthMS ∧ s1.bpm = s.bpm
      ∧ (0 < s.beatLengthMS → beatProgress s1 = some 0) := by
  have hin := isChainActive_false_of_deadline_passed hd s ms hw1 hw2 h
  have hW : 0 < hd.W := by omega
  refine ⟨_, update_rising_inactive hd s ms hN hedge hin, rfl, rfl, ?_, rfl,
    rfl, ?_, rfl, rfl, ?_⟩
  · exact take_zeroFirst _ _ hN
  · exact usub_self _ _ hW
  · intro hB
    simp [beatProgress, hB.ne', usub_self _ _ hW, fmod, ctrunc]

/-- Witness for C3: the tempo is 120 BPM, the last tap was at
2_500_000 µs and a tap arrives at 100_123_456 µs. -/
theorem lone_tap_is_phase_reset_witness :
    ∃ s1, update Header.std { defaults 500000 120 with lastTapMS := 2500000, tapsInChain := 6 }
          true 100123456 = some s1
      ∧ s1.tapsInChain = 1 ∧ s1.tapDurationIndex = 0
      ∧ s1.tapDurations.take s1.totalTapValues = List.replicate s1.totalTapValues 0
      ∧ s1.lastResetMS = 100123456 ∧ s1.lastTapMS = 100123456 ∧ s1.microsSinceReset = 0
      ∧ s1.beatLengthMS = 500000 ∧ s1.bpm = 120 ∧ beatProgress s1 = some 0 := by
  obtain ⟨s1, h1, h2, h3, h4, h5, h6, h7, h8, h9, h10⟩ := lone_tap_is_phase_reset Header.std
    { defaults 500000 120 with lastTapMS := 2500000, tapsInChain := 6 } 100123456
    (by decide) rfl (by decide) (by decide) (by decide) (Or.inl (by decide))
  exact ⟨s1, h1, h2, h3, h4, h5, h6, h7, h8, h9, h10 (by decide)⟩

/-! ## Phase across two updates -/

/-- C8, as stated, fails. With 500_000 µs beats counted from `lastResetMS = 0`, updates at
100_000 and 700_000 µs have the beat boundary 500_000 between them and `onBeat()` is false;
and with `lastResetMS = 1_000_000` (the clock has wrapped since the reset) updates at 0 and
100_000 µs make `onBeat()` true with no multiple of the beat length between them. -/
theorem monotone_phase_counterexample :
    ¬ MonotonePhase Header.std (defaults 500000 120) false false 100000 700000
    ∧ ¬ MonotonePhase Header.std { defaults 500000 120 with lastResetMS := 1000000 }
          false false 0 100000 := by
  constructor
  · rintro ⟨s1, s2, p1, p2, h1, h2, -, -, -, hiff⟩
    rw [update_false] at h1
    cases h1
    rw [update_false] at h2
    cases h2
    have hk : ∃ k : ℕ, 100000 < (defaults 500000 120).lastResetMS
          + k * (defaults 500000 120).beatLengthMS
        ∧ (defaults 500000 120).lastResetMS + k * (defaults 500000 120).beatLengthMS
          ≤ 700000 := ⟨1, by decide, by decide⟩
    have hb := hiff.mpr hk
    rw [onBeat_iff_mod_lt _ (by decide)] at hb
    revert hb
    decide
  · rintro ⟨s1, s2, p1, p2, h1, h2, -, -, -, hiff⟩
    rw [update_false] at h1
    cases h1
    rw [update_false] at h2
    cases h2
    have hb : onBeat
        { ({ defaults 500000 120 with lastResetMS := 1000000 } : ArduinoTapTempo) with
          buttonDownOld := false
          microsSinceResetOld := usub Header.std.W 0 1000000
          microsSinceReset := usub Header.std.W 100000 1000000 } = true := by
      rw [onBeat_iff_mod_lt _ (by decide)]
      decide
    obtain ⟨k, hk1, hk2⟩ := hiff.mp hb
    simp only [defaults] at hk1 hk2
    omega

theorem multiple_shift (r t1 t2 x : ℕ) (hr : r ≤ t1) (h12 : t1 ≤ t2) :
    (t1 < r + x ∧ r + x ≤ t2) ↔ (t1 - r < x ∧ x ≤ t2 - r) := by
  omega

theorem onBeat_after_two_polls (hd : Header) (s : ArduinoTapTempo) (b1 b2 : Bool)
    (t1 t2 : Nat) (hB : 0 < s.beatLengthMS) :
    onBeat { ({ s with buttonDownOld := b1
                       microsSinceResetOld := s.microsSinceReset
                       microsSinceReset := usub hd.W t1 s.lastResetMS } : ArduinoTapTempo) with
             buttonDownOld := b2
             microsSinceResetOld := usub hd.W t1 s.lastResetMS
             microsSinceReset := usub hd.W t2 s.lastResetMS } = true
      ↔ usub hd.W t2 s.lastResetMS % s.beatLengthMS
          < usub hd.W t1 s.lastResetMS % s.beatLengthMS :=
  onBeat_iff_mod_lt _ hB

/-- C8, amended: for a state with `beatLengthMS > 0` and two successive `update` calls
without a tap at times `lastResetMS ≤ t1 ≤ t2 < W` that are less than one beat length apart
(`t2 - t1 < beatLengthMS`), `beatProgress()` after the second call is not smaller than
after the first or exactly one multiple of `beatLengthMS`, counted from `lastResetMS`, lies
in `(t1, t2]`, and `onBeat()` after the second call is true iff such a multiple lies in
`(t1, t2]`. -/
theorem monotone_phase_within_one_beat (hd : Header) (s : ArduinoTapTempo) (b1 b2 : Bool)
    (t1 t2 : Nat) (hB : 0 < s.beatLengthMS)
    (hnt1 : (b1 && !s.buttonDownOld) = false) (hnt2 : (b2 && !b1) = false)
    (hr : s.lastResetMS ≤ t1) (h12 : t1 ≤ t2) (hW : t2 < hd.W)
    (hlt : t2 - t1 < s.beatLengthMS) :
    MonotonePhase hd s b1 b2 t1 t2 := by
  have hm1 : usub hd.W t1 s.lastResetMS = t1 - s.lastResetMS :=
    usub_of_le _ _ _ hr (by omega)
  have hm2 : usub hd.W t2 s.lastResetMS = t2 - s.lastResetMS :=
    usub_of_le _ _ _ (by omega) hW
  have hmod := mod_lt_mod_iff_multiple (t1 - s.lastResetMS) (t2 - s.lastResetMS)
    s.beatLengthMS hB (by omega) (by omega)
  have hiff := hmod.1
  have huniq := hmod.2
  have hshift : ∀ k : ℕ, (t1 < s.lastResetMS + k * s.beatLengthMS
        ∧ s.lastResetMS + k * s.beatLengthMS ≤ t2)
      ↔ (t1 - s.lastResetMS < k * s.beatLengthMS
        ∧ k * s.beatLengthMS ≤ t2 - s.lastResetMS) :=
    fun k => multiple_shift _ _ _ _ hr h12
  refine ⟨{ s with buttonDownOld := b1
                   microsSinceResetOld := s.microsSinceReset
                   microsSinceReset := usub hd.W t1 s.lastResetMS },
    { ({ s with buttonDownOld := b1
                microsSinceResetOld := s.microsSinceReset
                microsSinceReset := usub hd.W t1 s.lastResetMS } : ArduinoTapTempo) with
      buttonDownOld := b2
      microsSinceResetOld := usub hd.W t1 s.lastResetMS
      microsSinceReset := usub hd.W t2 s.lastResetMS },
    (((usub hd.W t1 s.lastResetMS % s.beatLengthMS : ℕ) : ℚ) / (s.beatLengthMS : ℚ)),
    (((usub hd.W t2 s.lastResetMS % s.beatLengthMS : ℕ) : ℚ) / (s.beatLengthMS : ℚ)),
    update_no_tap hd s b1 t1 hnt1, update_no_tap hd _ b2 t2 hnt2,
    beatProgress_some_of_pos _ hB, beatProgress_some_of_pos _ hB, ?_, ?_⟩
  · rw [hm1, hm2]
    by_cases hlt2 : (t2 - s.lastResetMS) % s.beatLengthMS
        < (t1 - s.lastResetMS) % s.beatLengthMS
    · right
      obtain ⟨k, hk1, hk2⟩ := hiff.mp hlt2
      refine ⟨k, (hshift k).mpr ⟨hk1, hk2⟩, ?_⟩
      intro k2 hk
      obtain ⟨h3, h4⟩ := (hshift k2).mp hk
      exact huniq k2 k h3 h4 hk1 hk2
    · left
      have hb : (0 : ℚ) < (s.beatLengthMS : ℚ) := by exact_mod_cast hB
      apply div_le_div_of_nonneg_right _ hb.le
      exact_mod_cast not_lt.mp hlt2
  · rw [onBeat_after_two_polls hd s b1 b2 t1 t2 hB, hm1, hm2, hiff]
    exact exists_congr fun k => (hshift k).symm

/-- Witness for C8: 500_000 µs beats, polls at 400_000 and
600_000 µs. -/
theorem monotone_phase_within_one_beat_witness :
    MonotonePhase Header.std (defaults 500000 120) false false 400000 600000 :=
  monotone_phase_within_one_beat Header.std (defaults 500000 120) false false 400000 600000
    (by decide) rfl rfl (by decide) (by decide) (by decide) (by decide)

/-! ## BPM from a float -/

/-- C7, as stated, fails: for `bpm_f = 1/128` the quotient `60_000_000 / bpm_f` is
`7_680_000_000`, which no 32-bit `unsigned long` holds: the conversion is undefined, and
whatever value below `2^32` were stored, with any fraction in `[0, 1)`, it would be more
than one microsecond away from the quotient. -/
theorem roundtrip_counterexample :
    ¬ RoundTrip Header.std (defaults 500000 120) (1 / 128)
    ∧ ∀ (n : ℕ) (f : ℚ), n < Header.std.W → 0 ≤ f → f < 1 →
        ¬ |(n : ℚ) + f - 60000000 / (1 / 128)| < 1 := by
  constructor
  · rintro ⟨s1, h, -⟩
    have hq : ctrunc ((60000000 : ℚ) / (1 / 128)) = 7680000000 := by
      rw [ctrunc_of_nonneg (by norm_num), Int.floor_eq_iff]
      norm_num
    have hne : ¬ ((1 : ℚ) / 128 = 0) := by norm_num
    simp only [setBPM_float, Header.std, CNum.toRat, if_neg hne, hq] at h
    rw [if_neg (by decide)] at h
    exact Option.noConfusion h
  · intro n f hn h0 h1 habs
    have hn2 : (n : ℚ) < 4294967296 := by
      have : n < 4294967296 := hn
      exact_mod_cast this
    rw [abs_lt] at habs
    norm_num at habs
    linarith [habs.1]

/-- C7, amended: with `sixtySeconds` of value `60_000_000`, for every `bpm_f > 0` whose
quotient `60_000_000 / bpm_f` is below the modulus `W` of `unsigned long`,
`setBPM(bpm_f)` returns, the stored `beatFract` lies in `[0, 1)`, `bpm` is `bpm_f`, and
`beatLengthMS + beatFract` differs from `60_000_000 / bpm_f` by less than one microsecond
(over exact arithmetic the two are equal). -/
theorem setBPM_float_roundtrip (hd : Header) (s : ArduinoTapTempo) (bpmF : ℚ)
    (hc : hd.sixtySeconds.toRat = 60000000) (h0 : 0 < bpmF)
    (hfit : 60000000 / bpmF < (hd.W : ℚ)) :
    RoundTrip hd s bpmF := by
  have hq0 : (0 : ℚ) ≤ 60000000 / bpmF := by positivity
  have hfl0 : (0 : ℤ) ≤ ⌊(60000000 : ℚ) / bpmF⌋ := Int.floor_nonneg.mpr hq0
  have hflW : ⌊(60000000 : ℚ) / bpmF⌋ < (hd.W : ℤ) := by
    rw [Int.floor_lt]
    exact_mod_cast hfit
  have hcast : ((⌊(60000000 : ℚ) / bpmF⌋.toNat : ℕ) : ℚ) = (⌊(60000000 : ℚ) / bpmF⌋ : ℚ) := by
    have h := Int.toNat_of_nonneg hfl0
    exact_mod_cast congrArg (fun z : ℤ => (z : ℚ)) h
  refine ⟨{ s with bpm := bpmF
                   beatFract := 60000000 / bpmF - ((⌊(60000000 : ℚ) / bpmF⌋ : ℤ) : ℚ)
                   beatLengthMS := ⌊(60000000 : ℚ) / bpmF⌋.toNat }, ?_, ?_, ?_, rfl, ?_⟩
  · simp only [setBPM_float, if_neg h0.ne', hc, ctrunc_of_nonneg hq0]
    rw [if_pos ⟨hfl0, hflW⟩]
  · exact sub_nonneg.mpr (Int.floor_le _)
  · have := Int.lt_floor_add_one ((60000000 : ℚ) / bpmF)
    show 60000000 / bpmF - ((⌊(60000000 : ℚ) / bpmF⌋ : ℤ) : ℚ) < 1
    linarith
  · show |((⌊(60000000 : ℚ) / bpmF⌋.toNat : ℕ) : ℚ)
        + (60000000 / bpmF - ((⌊(60000000 : ℚ) / bpmF⌋ : ℤ) : ℚ)) - 60000000 / bpmF| < 1
    rw [hcast]
    have : ((⌊(60000000 : ℚ) / bpmF⌋ : ℤ) : ℚ)
        + (60000000 / bpmF - ((⌊(60000000 : ℚ) / bpmF⌋ : ℤ) : ℚ)) - 60000000 / bpmF = 0 := by
      ring
    rw [this]
    norm_num

/-- Witness for C7: 120 BPM with the standard header. -/
theorem setBPM_float_roundtrip_witness :
    RoundTrip Header.std (defaults 400000 150) 120 :=
  setBPM_float_roundtrip Header.std (defaults 400000 150) 120 rfl (by norm_num)
    (by simp only [Header.std]; norm_num)

/-! ## The tap chain: one step -/

theorem sumLoop_eq (W : Nat) (n : Nat) (ds : List Nat) (acc : Nat) (hn : n ≤ ds.length)
    (hacc : acc < W) :
    sumLoop W acc n ds = some ((acc + (ds.take n).sum) % W) := by
  induction n generalizing ds acc with
  | zero => simp [sumLoop, Nat.mod_eq_of_lt hacc]
  | succ n ih =>
    cases ds with
    | nil => simp at hn
    | cons d ds =>
      simp only [List.length_cons, Nat.add_le_add_iff_right] at hn
      have hW : 0 < W := by omega
      rw [sumLoop, ih ds (uadd W acc d) hn (Nat.mod_lt _ hW)]
      simp only [uadd, List.take_succ_cons, List.sum_cons, Nat.mod_add_mod, Nat.add_assoc]

theorem getAverageTapDuration_eq (hd : Header) (s : ArduinoTapTempo) (m : Nat)
    (hm : m = min (s.tapsInChain - 1) s.totalTapValues) (hpos : 0 < m)
    (hlen : m ≤ s.tapDurations.length) (hW : m < hd.W) :
    getAverageTapDuration hd s
      = some (max s.minBeatLengthMS (((s.tapDurations.take m).sum % hd.W) / m)) := by
  have hamount : (if (s.tapsInChain : ℤ) - 1 > (s.totalTapValues : ℤ)
      then (s.totalTapValues : ℤ) else (s.tapsInChain : ℤ) - 1) = (m : ℤ) := by
    split_ifs <;> omega
  have hto : toULong hd.W (m : ℤ) = m := by
    unfold toULong
    rw [← Int.natCast_mod, Int.toNat_natCast]
    exact Nat.mod_eq_of_lt hW
  simp only [getAverageTapDuration, hamount, Int.toNat_natCast, hto,
    sumLoop_eq hd.W m s.tapDurations 0 hlen (by omega), Nat.zero_add,
    if_neg hpos.ne']
  rw [Option.some_bind]
  split_ifs with h
  · rw [max_eq_left h.le]
  · rw [max_eq_right (not_lt.mp h)]

theorem addTapToChain_first (hd : Header) (s : ArduinoTapTempo) (ms : Nat)
    (h : s.tapsInChain = 0) :
    addTapToChain hd s ms = some { s with lastTapMS := ms, tapsInChain := 1 } := by
  simp [addTapToChain, h]

theorem addTapToChain_next (hd : Header) (s : ArduinoTapTempo) (ms : Nat)
    (h : 0 < s.tapsInChain) (hidx : s.tapDurationIndex < s.tapDurations.length) :
    addTapToChain hd s ms
      = (getAverageTapDuration hd (afterStore hd s ms)).bind fun avg =>
          setBPM_ulong hd { afterStore hd s ms with beatLengthMS := avg } avg := by
  have h1 : ¬ (s.tapsInChain + 1 = 1) := by omega
  simp only [addTapToChain, if_neg h1, if_pos hidx]
  rfl

theorem addTapToChain_next_eq (hd : Header) (s : ArduinoTapTempo) (ms avg : Nat)
    (h : 0 < s.tapsInChain) (hidx : s.tapDurationIndex < s.tapDurations.length)
    (havg : getAverageTapDuration hd (afterStore hd s ms) = some avg) (h0 : 0 < avg) :
    addTapToChain hd s ms
      = some { afterStore hd s ms with
          beatLengthMS := avg, bpm := roundedBPM hd s.sigFigs avg } := by
  rw [addTapToChain_next hd s ms h hidx, havg, Option.some_bind]
  simp only [setBPM_ulong, if_neg h0.ne']
  rfl

/-! ## The ring buffer and the average -/

theorem take_set_self (L : List ℕ) (i v : ℕ) : List.take i (L.set i v) = List.take i L := by
  induction L generalizing i with
  | nil => simp
  | cons a L ih =>
    cases i with
    | zero => simp
    | succ i => simp [ih]

theorem ring_step (L : List ℕ) (i v : ℕ) (hi : i < L.length) :
    (L.set i v).rotate (i + 1) = (L.rotate i).tail ++ [v] := by
  rw [List.rotate_eq_drop_append_take (by simp; omega), List.rotate_eq_drop_append_take hi.le]
  have h1 : List.drop (i + 1) (L.set i v) = List.drop (i + 1) L := by
    rw [List.drop_set_of_lt _ _ (by omega)]
  have h2 : List.take (i + 1) (L.set i v) = List.take i L ++ [v] := by
    rw [List.take_succ, take_set_self]
    simp [hi]
  have h3 : List.drop i L = L[i] :: List.drop (i + 1) L := List.drop_eq_getElem_cons hi
  rw [h1, h2, h3]
  simp only [List.cons_append, List.tail_cons, List.append_assoc]

theorem take_window_cons (X : List ℕ) (N v : ℕ) (hN : 0 < N) (hX : N ≤ X.length) :
    ((v :: X).take N).reverse = ((X.take N).reverse).tail ++ [v] := by
  obtain ⟨n, rfl⟩ : ∃ n, N = n + 1 := ⟨N - 1, by omega⟩
  rw [List.take_succ_cons, List.reverse_cons]
  congr 1
  rw [List.take_succ, List.reverse_append]
  have : n < X.length := by omega
  simp [this]

theorem ring_store (ds : List ℕ) (N i v : ℕ) (X : List ℕ) (hi : i < N) (hN : N ≤ ds.length)
    (hX : N ≤ X.length) (hring : (ds.take N).rotate i = (X.take N).reverse) :
    ((ds.set i v).take N).rotate (if i + 1 = N then 0 else i + 1)
      = ((v :: X).take N).reverse := by
  have hL : (ds.take N).length = N := by simp [hN]
  have hrot : (((ds.take N).set i v)).rotate (if i + 1 = N then 0 else i + 1)
      = ((ds.take N).set i v).rotate (i + 1) := by
    split_ifs with h
    · have hlen : ((ds.take N).set i v).length = i + 1 := by simp [hN, h]
      rw [List.rotate_zero, ← hlen, List.rotate_length]
    · rfl
  rw [List.set_take, hrot, ring_step _ _ _ (by omega), hring,
    take_window_cons X N v (by omega) hX]

theorem chainInv_step (hd : Header) (N minB : Nat) (s : ArduinoTapTempo) (log : List Nat)
    (t : Nat) (hNW : N < hd.W) (hmin : 0 < minB) (h : ChainInv N minB s log) :
    ∃ s1, addTapToChain hd s t = some s1 ∧ writtenBy s s1 = [storedDuration hd s t]
      ∧ ChainInv N minB s1 (storedDuration hd s t :: log) := by
  obtain ⟨htc, hidx, hidxeq, hlen, hNeq, hminEq, hring⟩ := h
  have hidxlen : s.tapDurationIndex < s.tapDurations.length := by omega
  have hm : min (log.length + 1) N
      = min ((afterStore hd s t).tapsInChain - 1) (afterStore hd s t).totalTapValues := by
    show _ = min (s.tapsInChain + 1 - 1) s.totalTapValues
    rw [htc, hNeq]
    rfl
  have hlen2 : min (log.length + 1) N ≤ (afterStore hd s t).tapDurations.length := by
    show _ ≤ (s.tapDurations.set _ _).length
    rw [List.length_set]
    omega
  have havg := getAverageTapDuration_eq hd (afterStore hd s t) (min (log.length + 1) N) hm
    (by omega) hlen2 (by omega)
  have hpos : 0 < max (afterStore hd s t).minBeatLengthMS
      (((afterStore hd s t).tapDurations.take (min (log.length + 1) N)).sum % hd.W
        / min (log.length + 1) N) := by
    apply lt_max_of_lt_left
    show 0 < s.minBeatLengthMS
    omega
  refine ⟨_, addTapToChain_next_eq hd s t _ (by omega) hidxlen havg hpos, ?_, ?_⟩
  · have h0 : ¬ (s.tapsInChain = 0) := by omega
    simp only [writtenBy, if_neg h0]
    show [(s.tapDurations.set s.tapDurationIndex (storedDuration hd s t)).getD
      s.tapDurationIndex 0] = _
    simp [List.getD_eq_getElem?_getD, hidxlen]
  · refine ⟨?_, ?_, ?_, ?_, hNeq, hminEq, ?_⟩
    · show s.tapsInChain + 1 = (storedDuration hd s t :: log).length + 1
      simp [htc]
    · show (if s.tapDurationIndex + 1 = s.totalTapValues then 0 else s.tapDurationIndex + 1) < N
      split_ifs <;> omega
    · intro hl
      show (if s.tapDurationIndex + 1 = s.totalTapValues then 0 else s.tapDurationIndex + 1)
        = (storedDuration hd s t :: log).length
      simp only [List.length_cons] at hl ⊢
      have := hidxeq (by omega)
      rw [if_neg (by omega)]
      omega
    · show N ≤ (s.tapDurations.set _ _).length
      rw [List.length_set]
      exact hlen
    · have key := ring_store s.tapDurations N s.tapDurationIndex (storedDuration hd s t)
        (log ++ List.replicate N 0) hidx hlen (by simp) hring
      rw [← hNeq] at key
      rw [← hNeq]
      exact key

theorem chainInv_run (hd : Header) (N minB : Nat) (hNW : N < hd.W) (hmin : 0 < minB)
    (ts : List Nat) :
    ∀ (s : ArduinoTapTempo) (log : List Nat), ChainInv N minB s log →
      ∃ s1 log1, addTapsLogged hd s log ts = some (s1, log1) ∧ ChainInv N minB s1 log1
        ∧ log1.length = log.length + ts.length := by
  induction ts with
  | nil =>
    intro s log h
    exact ⟨s, log, rfl, h, rfl⟩
  | cons t ts ih =>
    intro s log h
    obtain ⟨s1, h1, hw, hinv⟩ := chainInv_step hd N minB s log t hNW hmin h
    obtain ⟨s2, log2, h2, hinv2, hl2⟩ := ih s1 _ hinv
    refine ⟨s2, log2, ?_, hinv2, ?_⟩
    · rw [addTapsLogged, h1, Option.some_bind, hw]
      exact h2
    · rw [hl2]
      simp only [List.length_cons]
      omega

theorem chainInv_sum (N minB : Nat) (s : ArduinoTapTempo) (log : List Nat)
    (h : ChainInv N minB s log) :
    (s.tapDurations.take (min log.length N)).sum = (log.take (min log.length N)).sum := by
  obtain ⟨htc, hidx, hidxeq, hlen, hNeq, hminEq, hring⟩ := h
  rcases Nat.lt_or_ge log.length N with hlt | hge
  · have hk := hidxeq hlt
    rw [min_eq_left hlt.le, List.take_length]
    rw [hk, List.rotate_eq_drop_append_take (by simp; omega)] at hring
    have hX : (log ++ List.replicate N 0).take N
        = log ++ List.replicate (N - log.length) 0 := by
      rw [List.take_append_eq_append_take, List.take_of_length_le hlt.le, List.take_replicate]
      congr 2
      omega
    rw [hX, List.reverse_append, List.reverse_replicate] at hring
    have hinj := List.append_inj hring (by simp; omega)
    have ht : List.take log.length (List.take N s.tapDurations)
        = List.take log.length s.tapDurations := by
      rw [List.take_take, min_eq_left hlt.le]
    rw [← ht, hinj.2, List.sum_reverse]
  · rw [min_eq_right hge]
    have hp : ((s.tapDurations.take N).rotate s.tapDurationIndex).sum
        = (s.tapDurations.take N).sum := (List.rotate_perm _ _).sum_eq
    rw [← hp, hring, List.sum_reverse, List.take_append_of_le_length hge]

theorem chainInv_average (hd : Header) (N minB : Nat) (s : ArduinoTapTempo) (log : List Nat)
    (hNW : N < hd.W) (hk : 1 ≤ log.length) (h : ChainInv N minB s log) :
    getAverageTapDuration hd s
      = some (max s.minBeatLengthMS
          ((log.take (min log.length s.totalTapValues)).sum % hd.W
            / min log.length s.totalTapValues)) := by
  have hsum := chainInv_sum N minB s log h
  obtain ⟨htc, hidx, hidxeq, hlen, hNeq, hminEq, hring⟩ := h
  rw [hNeq, ← hsum]
  apply getAverageTapDuration_eq
  · rw [htc, hNeq]
    rfl
  · omega
  · omega
  · omega

/-- C4, as stated, fails when the running total overflows. After `resetTapChain(0)` and
taps at 0, 2_000_000_000, 4_000_000_000 and, the 32-bit clock having wrapped, 1_000_000_000,
the three stored durations are 2_000_000_000, 2_000_000_000 and 1_000_000_000; their sum
exceeds `2^32`, and `getAverageTapDuration()` returns 235_010_901, not 1_666_666_666. -/
theorem chain_average_counterexample :
    ¬ ChainAverage Header.std { defaults 500000 120 with skippedTapDetection := false } 0
        [0, 2000000000, 4000000000, 1000000000] id := by
  rintro ⟨sr, s1, log, hr, hrun, -, -, havg⟩
  have hval : ((resetTapChain { defaults 500000 120 with skippedTapDetection := false } 0).bind
      fun sr => addTapsLogged Header.std sr [] [0, 2000000000, 4000000000, 1000000000]).map
        (fun p => (p.2, p.1.totalTapValues, p.1.minBeatLengthMS,
          getAverageTapDuration Header.std p.1))
      = some ([1000000000, 2000000000, 2000000000], 5, 250000, some 235010901) := by
    decide
  rw [hr, Option.some_bind, hrun, Option.map_some', Option.some.injEq, Prod.mk.injEq,
    Prod.mk.injEq, Prod.mk.injEq] at hval
  obtain ⟨hlog, hN, hmin, hget⟩ := hval
  have hlog2 : log = [1000000000, 2000000000, 2000000000] := hlog
  have hN2 : s1.totalTapValues = 5 := hN
  have hmin2 : s1.minBeatLengthMS = 250000 := hmin
  have hget2 : getAverageTapDuration Header.std s1 = some 235010901 := hget
  rw [hget2, hlog2, hN2, hmin2] at havg
  revert havg
  decide

/-- C4, amended: for every chain of `resetTapChain` followed by `k + 1 ≥ 2` calls of
`addTapToChain` (with `1 ≤ totalTapValues ≤` the size of `tapDurations`, below `W`, and
`minBeatLengthMS > 0`) the run returns with `tapsInChain = k + 1`, and
`getAverageTapDuration()` returns `max(minBeatLengthMS, floor((S mod W) / m))` where
`m = min(k, totalTapValues)` and `S` is the sum of the `m` most recently stored durations
of the chain; this is `floor(S / m)` whenever the sum does not overflow (`S < W`). -/
theorem chain_average_over_recent (hd : Header) (s0 : ArduinoTapTempo) (r : Nat)
    (ts : List Nat) (hN1 : 1 ≤ s0.totalTapValues)
    (hNlen : s0.totalTapValues ≤ s0.tapDurations.length)
    (hNW : s0.totalTapValues < hd.W) (hmin : 0 < s0.minBeatLengthMS) (hk : 2 ≤ ts.length) :
    ChainAverage hd s0 r ts (fun S => S % hd.W) := by
  cases ts with
  | nil => simp at hk
  | cons t0 ts =>
    simp only [List.length_cons] at hk
    have hinv : ChainInv s0.totalTapValues s0.minBeatLengthMS
        { ({ s0 with tapsInChain := 0, tapDurationIndex := 0, lastResetMS := r
                     tapDurations := zeroFirst s0.totalTapValues s0.tapDurations } :
            ArduinoTapTempo) with lastTapMS := t0, tapsInChain := 1 } [] := by
      refine ⟨rfl, hN1, fun _ => rfl, ?_, rfl, rfl, ?_⟩
      · show _ ≤ (zeroFirst _ _).length
        rw [length_zeroFirst]
        exact hNlen
      · show ((zeroFirst _ _).take _).rotate 0 = _
        rw [take_zeroFirst _ _ hNlen]
        simp
    obtain ⟨s1, log, hrun, hinv1, hl⟩ := chainInv_run hd _ _ hNW hmin ts _ _ hinv
    simp only [List.length_nil, Nat.zero_add] at hl
    refine ⟨{ s0 with tapsInChain := 0, tapDurationIndex := 0, lastResetMS := r
                      tapDurations := zeroFirst s0.totalTapValues s0.tapDurations },
      s1, log, ?_, ?_, ?_, hinv1.1, ?_⟩
    · simp only [resetTapChain, if_pos hNlen]
    · rw [addTapsLogged, addTapToChain_first _ _ _ rfl, Option.some_bind]
      exact hrun
    · simp only [List.length_cons, hl]
    · exact chainInv_average hd _ _ s1 log hNW (by omega) hinv1

/-- Witness for C4: the default state, taps at 0, 500_000, 1_000_000. -/
theorem chain_average_over_recent_witness :
    ChainAverage Header.std (defaults 500000 120) 0 [0, 500000, 1000000]
      (fun S => S % Header.std.W) :=
  chain_average_over_recent Header.std (defaults 500000 120) 0 [0, 500000, 1000000]
    (by decide) (by decide) (by decide) (by decide) (by decide)

/-! ## A tap on an active chain -/

theorem isChainActive_true_of_before_deadlines (hd : Header) (s : ArduinoTapTempo) (ms : Nat)
    (hw1 : s.lastTapMS + s.maxBeatLengthMS < hd.W)
    (hw2 : s.lastTapMS + s.beatLengthMS * s.beatsUntilChainReset < hd.W)
    (h1 : ms < s.lastTapMS + s.maxBeatLengthMS)
    (h2 : ms < s.lastTapMS + s.beatLengthMS * s.beatsUntilChainReset) :
    isChainActive hd s ms = true := by
  have h3 : s.beatLengthMS * s.beatsUntilChainReset < hd.W := by omega
  simp only [isChainActive, uadd_of_lt _ _ _ hw1, umul_of_lt _ _ _ h3, uadd_of_lt _ _ _ hw2]
  simp [h1, h2]

theorem measuredDuration_of_lt (hd : Header) (s : ArduinoTapTempo) (ms : Nat)
    (h : s.lastTapMS < ms) (hms : ms < hd.W) :
    measuredDuration hd s ms = ms - s.lastTapMS := by
  simp only [measuredDuration, gt_iff_lt, if_pos h]
  exact usub_of_le _ _ _ h.le hms

theorem skipDetected_false_of_le (s : ArduinoTapTempo) (d : Nat)
    (h : (d : ℚ) ≤ (s.beatLengthMS : ℚ) * s.skippedTapThresholdLow) :
    skipDetected s d = false := by
  simp only [skipDetected, gt_iff_lt, decide_eq_false (not_lt.mpr h), Bool.and_false,
    Bool.false_and]

theorem skipDetected_false_of_second (s : ArduinoTapTempo) (d : Nat)
    (h : s.tapsInChain ≤ 2) :
    skipDetected s d = false := by
  simp only [skipDetected, gt_iff_lt, decide_eq_false (Nat.not_lt.mpr h), Bool.and_false,
    Bool.false_and]

theorem take_set_replicate_inside (ds : List ℕ) (i m p : ℕ)
    (h : ds.take m = List.replicate m p) :
    (ds.set i p).take m = List.replicate m p := by
  rw [List.set_take, h]
  apply List.ext_getElem
  · simp
  · intro n h1 h2
    simp only [List.length_set, List.length_replicate] at h1
    rw [List.getElem_set]
    split_ifs <;> simp

theorem take_set_replicate_next (ds : List ℕ) (m p : ℕ) (hm : m < ds.length)
    (h : ds.take m = List.replicate m p) :
    (ds.set m p).take (m + 1) = List.replicate (m + 1) p := by
  rw [List.take_succ, take_set_self, h]
  simp [hm, List.replicate_succ']

theorem tap_step_const (hd : Header) (s : ArduinoTapTempo) (ms p m : Nat)
    (hact : isChainActive hd s ms = true) (htc : 1 ≤ s.tapsInChain)
    (hidx : s.tapDurationIndex < s.tapDurations.length)
    (hstored : storedDuration hd s ms = p)
    (hm : m = min s.tapsInChain s.totalTapValues) (hmpos : 0 < m)
    (hmlen : m ≤ s.tapDurations.length) (hmW : m * p < hd.W)
    (htake : (s.tapDurations.set s.tapDurationIndex p).take m = List.replicate m p)
    (hminp : s.minBeatLengthMS ≤ p) (hp : 0 < p) :
    tap hd s ms
      = some { afterStore hd s ms with
          beatLengthMS := p, bpm := roundedBPM hd s.sigFigs p } := by
  have hmW2 : m < hd.W := by
    have : m * 1 ≤ m * p := Nat.mul_le_mul_left m hp
    omega
  have havg : getAverageTapDuration hd (afterStore hd s ms) = some p := by
    rw [getAverageTapDuration_eq hd (afterStore hd s ms) m
      (by show m = min (s.tapsInChain + 1 - 1) s.totalTapValues; simpa using hm) hmpos
      (by show m ≤ (s.tapDurations.set _ _).length; rw [List.length_set]; exact hmlen) hmW2]
    show some (max s.minBeatLengthMS
      (((s.tapDurations.set s.tapDurationIndex (storedDuration hd s ms)).take m).sum % hd.W / m))
      = some p
    rw [hstored, htake, List.sum_replicate, smul_eq_mul, Nat.mod_eq_of_lt hmW,
      Nat.mul_div_cancel_left p hmpos, max_eq_right hminp]
  simp only [tap, hact, if_true]
  exact addTapToChain_next_eq hd s ms p (by omega) hidx havg hp

/-! ## Steady tapping -/

theorem steady_step (hd : Header) (s0 : ArduinoTapTempo) (t0 p i : Nat) (s : ArduinoTapTempo)
    (hminp : s0.minBeatLengthMS ≤ p) (hp0 : 0 < p) (hpmax : p < s0.maxBeatLengthMS)
    (hpB : i = 0 → p < s0.beatLengthMS * s0.beatsUntilChainReset)
    (hNlen : s0.totalTapValues ≤ s0.tapDurations.length)
    (hbeats : 2 ≤ s0.beatsUntilChainReset) (hlow : 1 ≤ s0.skippedTapThresholdLow)
    (hw1 : t0 + i * p + s0.maxBeatLengthMS < hd.W)
    (hw2 : i = 0 → t0 + s0.beatLengthMS * s0.beatsUntilChainReset < hd.W)
    (hw3 : t0 + i * p + p * s0.beatsUntilChainReset < hd.W)
    (h : SteadyInv hd s0 t0 p i s) :
    ∃ s1, tap hd s (t0 + (i + 1) * p) = some s1 ∧ SteadyInv hd s0 t0 p (i + 1) s1
      ∧ s1.lastTapSkipped = false := by
  obtain ⟨hlast, htc, hidx, hidxeq, htake, hlen, hN, hb, hmn, hmx, hlo, hsig, hdet, hhi, hB⟩ :=
    h
  have hsucc : (i + 1) * p = i * p + p := Nat.succ_mul i p
  have hp2 : p * 2 ≤ p * s0.beatsUntilChainReset := Nat.mul_le_mul_left p hbeats
  have hBb : s.lastTapMS + s.beatLengthMS * s.beatsUntilChainReset < hd.W
      ∧ t0 + (i + 1) * p < s.lastTapMS + s.beatLengthMS * s.beatsUntilChainReset := by
    rcases hB with ⟨hi0, hB0⟩ | ⟨hi1, hBp, -⟩
    · have ha := hpB hi0
      have hb2 := hw2 hi0
      subst hi0
      rw [hlast, hB0, hb]
      omega
    · rw [hlast, hBp, hb]
      omega
  have hact : isChainActive hd s (t0 + (i + 1) * p) = true :=
    isChainActive_true_of_before_deadlines hd s _ (by rw [hlast, hmx]; exact hw1) hBb.1
      (by rw [hlast, hmx]; omega) hBb.2
  have hmeas : measuredDuration hd s (t0 + (i + 1) * p) = p := by
    rw [measuredDuration_of_lt hd s _ (by omega) (by omega), hlast]
    omega
  have hskip : skipDetected { s with lastTapMS := t0 + (i + 1) * p
                                     tapsInChain := s.tapsInChain + 1 } p = false := by
    rcases hB with ⟨hi0, -⟩ | ⟨-, hBp, -⟩
    · apply skipDetected_false_of_second
      show s.tapsInChain + 1 ≤ 2
      omega
    · apply skipDetected_false_of_le
      show (p : ℚ) ≤ (s.beatLengthMS : ℚ) * s.skippedTapThresholdLow
      rw [hBp, hlo]
      exact le_mul_of_one_le_right (by positivity) hlow
  have hstored : storedDuration hd s (t0 + (i + 1) * p) = p := by
    simp only [storedDuration, hmeas, hskip]
    rfl
  have hmle : min (i + 1) s0.totalTapValues * p ≤ (i + 1) * p :=
    Nat.mul_le_mul_right p (min_le_left _ _)
  have htake2 : (s.tapDurations.set s.tapDurationIndex p).take (min (i + 1) s0.totalTapValues)
      = List.replicate (min (i + 1) s0.totalTapValues) p := by
    rcases Nat.lt_or_ge i s0.totalTapValues with hlt | hge
    · rw [hidxeq hlt, min_eq_left (by omega : i + 1 ≤ s0.totalTapValues)]
      rw [min_eq_left hlt.le] at htake
      exact take_set_replicate_next _ _ _ (by omega) htake
    · rw [min_eq_right (by omega : s0.totalTapValues ≤ i + 1)]
      rw [min_eq_right hge] at htake
      exact take_set_replicate_inside _ _ _ _ htake
  have hstep := tap_step_const hd s (t0 + (i + 1) * p) p (min (i + 1) s0.totalTapValues)
    hact (by omega) (by omega) hstored (by rw [htc, hN]) (by omega) (by omega) (by omega)
    htake2 (by omega) hp0
  refine ⟨_, hstep, ⟨rfl, ?_, ?_, ?_, ?_, ?_, hN, hb, hmn, hmx, hlo, hsig, hdet, hhi, ?_⟩, ?_⟩
  rotate_right
  · show skipDetected { s with lastTapMS := t0 + (i + 1) * p
                               tapsInChain := s.tapsInChain + 1 }
      (measuredDuration hd s (t0 + (i + 1) * p)) = false
    rw [hmeas]
    exact hskip
  · show s.tapsInChain + 1 = i + 1 + 1
    omega
  · show (if s.tapDurationIndex + 1 = s.totalTapValues then 0 else s.tapDurationIndex + 1)
      < s0.totalTapValues
    split_ifs <;> omega
  · intro hlt
    show (if s.tapDurationIndex + 1 = s.totalTapValues then 0 else s.tapDurationIndex + 1)
      = i + 1
    have := hidxeq (by omega)
    rw [if_neg (by omega)]
    omega
  · show (s.tapDurations.set s.tapDurationIndex (storedDuration hd s (t0 + (i + 1) * p))).take
      (min (i + 1) s0.totalTapValues) = _
    rw [hstored]
    exact htake2
  · show (s.tapDurations.set _ _).length = _
    rw [List.length_set]
    exact hlen
  · right
    refine ⟨by omega, rfl, ?_⟩
    show roundedBPM hd s.sigFigs p = roundedBPM hd s0.sigFigs p
    rw [hsig]

theorem steady_run (hd : Header) (s0 : ArduinoTapTempo) (t0 p K : Nat)
    (hminp : s0.minBeatLengthMS ≤ p) (hp0 : 0 < p) (hpmax : p < s0.maxBeatLengthMS)
    (hpB : p < s0.beatLengthMS * s0.beatsUntilChainReset)
    (hNlen : s0.totalTapValues ≤ s0.tapDurations.length)
    (hbeats : 2 ≤ s0.beatsUntilChainReset) (hlow : 1 ≤ s0.skippedTapThresholdLow)
    (hw1 : t0 + K * p + s0.maxBeatLengthMS < hd.W)
    (hw2 : t0 + s0.beatLengthMS * s0.beatsUntilChainReset < hd.W)
    (hw3 : t0 + K * p + p * s0.beatsUntilChainReset < hd.W) (n : Nat) :
    ∀ (i : Nat) (s : ArduinoTapTempo), SteadyInv hd s0 t0 p i s → i + n ≤ K + 1 →
      ∃ s1, tapAll hd s ((List.range' (i + 1) n).map fun j => t0 + j * p) = some s1
        ∧ SteadyInv hd s0 t0 p (i + n) s1 := by
  induction n with
  | zero =>
    intro i s h _
    exact ⟨s, rfl, h⟩
  | succ n ih =>
    intro i s h hin
    have hiK : i * p ≤ K * p := Nat.mul_le_mul_right p (by omega)
    obtain ⟨s1, h1, hinv1, -⟩ := steady_step hd s0 t0 p i s hminp hp0 hpmax (fun _ => hpB)
      hNlen hbeats hlow (by omega) (fun _ => hw2) (by omega) h
    obtain ⟨s2, h2, hinv2⟩ := ih (i + 1) s1 hinv1 (by omega)
    refine ⟨s2, ?_, ?_⟩
    · rw [List.range'_succ, List.map_cons, tapAll, h1, Option.some_bind]
      exact h2
    · have : i + (n + 1) = i + 1 + n := by omega
      rw [this]
      exact hinv2

theorem steady_first (hd : Header) (s : ArduinoTapTempo) (t0 p : Nat)
    (hN1 : 1 ≤ s.totalTapValues) (hNlen : s.totalTapValues ≤ s.tapDurations.length)
    (hnew : isChainActive hd s t0 = false ∨ (s.tapsInChain = 0 ∧ s.tapDurationIndex = 0)) :
    ∃ s1, tap hd s t0 = some s1 ∧ SteadyInv hd s t0 p 0 s1 := by
  cases hact : isChainActive hd s t0 with
  | false =>
    refine ⟨_, tap_inactive hd s t0 hNlen hact, ?_⟩
    refine ⟨by simp, rfl, hN1, fun _ => rfl, by simp, ?_, rfl, rfl, rfl, rfl, rfl, rfl,
      rfl, rfl, Or.inl ⟨rfl, rfl⟩⟩
    exact length_zeroFirst _ _
  | true =>
    rcases hnew with hf | ⟨htc, hidx⟩
    · rw [hact] at hf
      exact absurd hf (by decide)
    · refine ⟨{ s with lastTapMS := t0, tapsInChain := 1 }, ?_, ?_⟩
      · simp only [tap, hact, if_true]
        exact addTapToChain_first hd s t0 htc
      · refine ⟨by simp, rfl, ?_, fun _ => hidx, by simp, rfl, rfl, rfl, rfl, rfl, rfl, rfl,
          rfl, rfl, Or.inl ⟨rfl, rfl⟩⟩
        show s.tapDurationIndex < s.totalTapValues
        omega

theorem usub_eq_emod (W a b : Nat) (hW : 0 < W) :
    ((usub W a b : ℕ) : ℤ) = ((a : ℤ) - (b : ℤ)) % (W : ℤ) := by
  unfold usub
  have hr : b % W < W := Nat.mod_lt b hW
  have hb : (b : ℤ) = (W : ℤ) * ((b / W : ℕ) : ℤ) + ((b % W : ℕ) : ℤ) := by
    exact_mod_cast (Nat.div_add_mod b W).symm
  have e : ((a + (W - b % W) : ℕ) : ℤ)
      = ((a : ℤ) - (b : ℤ)) + (W : ℤ) * (1 + ((b / W : ℕ) : ℤ)) := by
    rw [Nat.cast_add, Nat.cast_sub hr.le]
    rw [hb]
    ring
  rw [Int.natCast_mod, e, Int.add_mul_emod_self_left]

/-- C13: `isChainActive` near the clock wrap. With the defaults at 120 BPM and the last tap
at `2^32 - 500_000`, at `2^32 - 100_000` (0.4 s later) both deadlines are later than now
under the wrap-safe comparison, yet `isChainActive` is false, because the sum
`lastTapMS + maxBeatLengthMS` has wrapped to 2_500_000; shifted by 500_000 (last tap at 0,
now 400_000) the same situation gives true. -/
theorem isChainActive_not_wrap_safe :
    isChainActive Header.std { defaults 500000 120 with lastTapMS := 4294467296 } 4294867296
        = false
    ∧ isChainActiveWrapSafe Header.std
        { defaults 500000 120 with lastTapMS := 4294467296 } 4294867296 = true
    ∧ uadd Header.std.W 4294467296 3000000 = 2500000
    ∧ isChainActive Header.std { defaults 500000 120 with lastTapMS := 0 } 400000 = true := by
  refine ⟨by decide, by decide, by decide, by decide⟩

/-- C12: two runs that differ only by a shift of the clock. Taps at 1_000_000 and
3_600_000 from the defaults at 740_000 µs store 2_600_000; shifted by `2^32 - 3_500_000`,
so that the second tap falls after the wrap at 100_000, the run stores 3_600_000, the time
since `lastResetMS`. And with skipped-tap detection off, taps at 1_000_000, 1_500_000,
2_000_000 give three taps in the chain and two stored intervals; shifted by
`2^32 - 1_600_000` the taps before the wrap each find the chain inactive and the run ends
with two taps in the chain and one stored interval. -/
theorem shifted_run_differs :
    (tapAll Header.std (defaults 740000 81) [1000000, 3600000]).map
        (fun s => (s.tapsInChain, s.beatLengthMS, s.tapDurations.take 2))
      = some (2, 2600000, [2600000, 0])
    ∧ (tapAll Header.std
        { defaults 740000 81 with lastTapMS := 4291467296, lastResetMS := 4291467296 }
        [4292467296, 100000]).map
        (fun s => (s.tapsInChain, s.beatLengthMS, s.tapDurations.take 2))
      = some (2, 3600000, [3600000, 0])
    ∧ (tapAll Header.std { defaults 400000 150 with skippedTapDetection := false }
        [1000000, 1500000, 2000000]).map
        (fun s => (s.tapsInChain, s.beatLengthMS, s.tapDurations.take 2))
      = some (3, 500000, [500000, 500000])
    ∧ (tapAll Header.std
        { defaults 400000 150 with skippedTapDetection := false
                                   lastTapMS := 4293367296, lastResetMS := 4293367296 }
        [4294367296, 4294867296, 400000]).map
        (fun s => (s.tapsInChain, s.beatLengthMS, s.tapDurations.take 2))
      = some (2, 500000, [500000, 0]) := by
  refine ⟨by decide, by decide, by decide, by decide⟩

/-! ## What one call changes -/

theorem addTapToChain_next_some (hd : Header) (s s1 : ArduinoTapTempo) (ms : Nat)
    (h0 : 0 < s.tapsInChain) (h : addTapToChain hd s ms = some s1) :
    s.tapDurationIndex < s.tapDurations.length
      ∧ ∃ avg, getAverageTapDuration hd (afterStore hd s ms) = some avg ∧ 0 < avg
        ∧ s1 = { afterStore hd s ms with
            beatLengthMS := avg, bpm := roundedBPM hd s.sigFigs avg } := by
  have h1 : ¬ (s.tapsInChain + 1 = 1) := by omega
  by_cases hidx : s.tapDurationIndex < s.tapDurations.length
  · refine ⟨hidx, ?_⟩
    rw [addTapToChain_next hd s ms h0 hidx] at h
    cases hget : getAverageTapDuration hd (afterStore hd s ms) with
    | none => rw [hget] at h; exact Option.noConfusion h
    | some avg =>
      rw [hget, Option.some_bind] at h
      by_cases ha : avg = 0
      · simp only [setBPM_ulong, if_pos ha] at h
        exact Option.noConfusion h
      · simp only [setBPM_ulong, if_neg ha] at h
        exact ⟨avg, rfl, Nat.pos_of_ne_zero ha, (Option.some.inj h).symm⟩
  · simp only [addTapToChain, if_neg h1, if_neg hidx] at h
    exact Option.noConfusion h

theorem addTapToChain_frame (hd : Header) (s s1 : ArduinoTapTempo) (ms : Nat)
    (h : addTapToChain hd s ms = some s1) : TapFrame s s1 := by
  rcases Nat.eq_zero_or_pos s.tapsInChain with h0 | h0
  · rw [addTapToChain_first hd s ms h0] at h
    cases h
    exact ⟨rfl, rfl, rfl, rfl, rfl, rfl, rfl, rfl, rfl, rfl, rfl, rfl, rfl⟩
  · obtain ⟨-, avg, -, -, rfl⟩ := addTapToChain_next_some hd s s1 ms h0 h
    refine ⟨rfl, rfl, rfl, rfl, rfl, rfl, rfl, rfl, ?_, rfl, rfl, rfl, rfl⟩
    show (s.tapDurations.set _ _).length = _
    rw [List.length_set]

theorem resetTapChain_some (s s1 : ArduinoTapTempo) (ms : Nat)
    (h : resetTapChain s ms = some s1) :
    s.totalTapValues ≤ s.tapDurations.length
      ∧ s1 = { s with tapsInChain := 0, tapDurationIndex := 0, lastResetMS := ms
                      tapDurations := zeroFirst s.totalTapValues s.tapDurations } := by
  by_cases hN : s.totalTapValues ≤ s.tapDurations.length
  · simp only [resetTapChain, if_pos hN] at h
    exact ⟨hN, (Option.some.inj h).symm⟩
  · simp only [resetTapChain, if_neg hN] at h
    exact Option.noConfusion h

theorem resetTapChain_frame (s s1 : ArduinoTapTempo) (ms : Nat)
    (h : resetTapChain s ms = some s1) : TapFrame s s1 := by
  obtain ⟨-, rfl⟩ := resetTapChain_some s s1 ms h
  exact ⟨rfl, rfl, rfl, rfl, rfl, rfl, rfl, rfl, length_zeroFirst _ _, rfl, rfl, rfl, rfl⟩

theorem TapFrame.trans {s s1 s2 : ArduinoTapTempo} (h1 : TapFrame s s1)
    (h2 : TapFrame s1 s2) : TapFrame s s2 := by
  obtain ⟨a1, a2, a3, a4, a5, a6, a7, a8, a9, a10, a11, a12, a13⟩ := h1
  obtain ⟨b1, b2, b3, b4, b5, b6, b7, b8, b9, b10, b11, b12, b13⟩ := h2
  exact ⟨b1.trans a1, b2.trans a2, b3.trans a3, b4.trans a4, b5.trans a5, b6.trans a6,
    b7.trans a7, b8.trans a8, b9.trans a9, b10.trans a10, b11.trans a11, b12.trans a12,
    b13.trans a13⟩

theorem tap_cases (hd : Header) (s s1 : ArduinoTapTempo) (ms : Nat)
    (h : tap hd s ms = some s1) :
    (isChainActive hd s ms = true ∧ addTapToChain hd s ms = some s1)
      ∨ (isChainActive hd s ms = false ∧ ∃ sr, resetTapChain s ms = some sr
          ∧ addTapToChain hd sr ms = some s1) := by
  cases hact : isChainActive hd s ms with
  | true =>
    left
    simp only [tap, hact, if_true] at h
    exact ⟨rfl, h⟩
  | false =>
    right
    simp only [tap, hact] at h
    cases hr : resetTapChain s ms with
    | none => rw [hr] at h; exact Option.noConfusion h
    | some sr =>
      rw [hr, Option.some_bind] at h
      exact ⟨rfl, sr, rfl, h⟩

theorem tap_frame (hd : Header) (s s1 : ArduinoTapTempo) (ms : Nat)
    (h : tap hd s ms = some s1) : TapFrame s s1 := by
  rcases tap_cases hd s s1 ms h with ⟨-, ha⟩ | ⟨-, sr, hr, ha⟩
  · exact addTapToChain_frame hd s s1 ms ha
  · exact (resetTapChain_frame s sr ms hr).trans (addTapToChain_frame hd sr s1 ms ha)

theorem update_some (hd : Header) (s s1 : ArduinoTapTempo) (b : Bool) (ms : Nat)
    (h : update hd s b ms = some s1) :
    ∃ st, (if b && !s.buttonDownOld then tap hd s ms else some s) = some st
      ∧ s1 = { st with buttonDownOld := b
                       microsSinceResetOld := st.microsSinceReset
                       microsSinceReset := usub hd.W ms st.lastResetMS } := by
  unfold update at h
  cases hst : (if b && !s.buttonDownOld then tap hd s ms else some s) with
  | none => rw [hst] at h; exact Option.noConfusion h
  | some st =>
    rw [hst, Option.some_bind] at h
    exact ⟨st, rfl, (Option.some.inj h).symm⟩

theorem update_chainWF (hd : Header) (s s1 : ArduinoTapTempo) (b : Bool) (ms : Nat)
    (h : update hd s b ms = some s1) (hwf : ChainWF hd s) : ChainWF hd s1 := by
  obtain ⟨st, hst, rfl⟩ := update_some hd s s1 b ms h
  have hf : TapFrame s st := by
    split_ifs at hst with hb
    · exact tap_frame hd s st ms hst
    · cases hst
      exact ⟨rfl, rfl, rfl, rfl, rfl, rfl, rfl, rfl, rfl, rfl, rfl, rfl, rfl⟩
  obtain ⟨-, -, -, -, hN, -, hmin, -, hlen, -, -, -, -⟩ := hf
  obtain ⟨w1, w2, w3, w4⟩ := hwf
  refine ⟨?_, ?_, ?_, ?_⟩
  · show 1 ≤ st.totalTapValues
    omega
  · show st.totalTapValues ≤ _
    omega
  · show st.tapDurations.length = _
    omega
  · show 0 < st.minBeatLengthMS
    omega

theorem frame_chainWF (hd : Header) (s s1 : ArduinoTapTempo) (hf : TapFrame s s1)
    (hwf : ChainWF hd s) : ChainWF hd s1 := by
  obtain ⟨-, -, -, -, hN, -, hmin, -, hlen, -, -, -, -⟩ := hf
  obtain ⟨w1, w2, w3, w4⟩ := hwf
  exact ⟨by omega, by omega, by omega, by omega⟩

theorem setBPM_float_chainWF (hd : Header) (s s1 : ArduinoTapTempo) (x : ℚ)
    (h : setBPM_float hd s x = some s1) (hwf : ChainWF hd s) : ChainWF hd s1 := by
  by_cases hx : x = 0
  · simp only [setBPM_float, if_pos hx] at h
    exact Option.noConfusion h
  · by_cases hc : 0 ≤ ctrunc (hd.sixtySeconds.toRat / x)
        ∧ ctrunc (hd.sixtySeconds.toRat / x) < (hd.W : ℤ)
    · simp only [setBPM_float, if_neg hx, if_pos hc] at h
      cases h
      exact hwf
    · simp only [setBPM_float, if_neg hx, if_neg hc] at h
      exact Option.noConfusion h

theorem reachable_chainWF (hd : Header) (s0 s : ArduinoTapTempo)
    (hMAX : 2 ≤ hd.MAX_TAP_VALUES) (h0 : ChainWF hd s0) (hr : Reachable hd s0 s) :
    ChainWF hd s := by
  induction hr with
  | start => exact h0
  | byUpdate b ms _ h ih => exact update_chainWF hd _ _ b ms h ih
  | byTap ms _ h ih => exact frame_chainWF hd _ _ (tap_frame hd _ _ ms h) ih
  | byReset ms _ h ih => exact frame_chainWF hd _ _ (resetTapChain_frame _ _ ms h) ih
  | bySetLow x _ ih =>
    unfold setSkippedTapThresholdLow
    split_ifs <;> exact ih
  | bySetHigh x _ ih =>
    unfold setSkippedTapThresholdHigh
    split_ifs <;> exact ih
  | bySetSigFigs x _ ih =>
    unfold setSigFigs
    split_ifs <;> exact ih
  | bySetBPM x _ h ih => exact setBPM_float_chainWF hd _ _ x h ih
  | bySetBPMms ms _ h ih =>
    by_cases hz : ms = 0
    · simp only [setBPM_ulong, if_pos hz] at h
      exact Option.noConfusion h
    · simp only [setBPM_ulong, if_neg hz] at h
      cases h
      exact ih
  | byAddTap ms _ h ih => exact frame_chainWF hd _ _ (addTapToChain_frame hd _ _ ms h) ih
  | bySetBeats x _ ih => exact ih
  | bySetTotal x _ ih =>
    obtain ⟨w1, w2, w3, w4⟩ := ih
    refine ⟨?_, ?_, w3, w4⟩
    · show 1 ≤ (if x < 2 then (2 : ℤ) else if x > (hd.MAX_TAP_VALUES : ℤ)
        then (hd.MAX_TAP_VALUES : ℤ) else x).toNat
      split_ifs <;> omega
    · show (if x < 2 then (2 : ℤ) else if x > (hd.MAX_TAP_VALUES : ℤ)
        then (hd.MAX_TAP_VALUES : ℤ) else x).toNat ≤ hd.MAX_TAP_VALUES
      split_ifs <;> omega

theorem getAverage_afterStore_of_wf (hd : Header) (s : ArduinoTapTempo) (ms : Nat)
    (htc : 0 < s.tapsInChain) (hN1 : 1 ≤ s.totalTapValues)
    (hNlen : s.totalTapValues ≤ s.tapDurations.length) (hNW : s.totalTapValues < hd.W) :
    getAverageTapDuration hd (afterStore hd s ms)
      = some (max s.minBeatLengthMS
          (((s.tapDurations.set s.tapDurationIndex (storedDuration hd s ms)).take
              (min s.tapsInChain s.totalTapValues)).sum % hd.W
            / min s.tapsInChain s.totalTapValues)) :=
  getAverageTapDuration_eq hd (afterStore hd s ms) (min s.tapsInChain s.totalTapValues)
    (by show _ = min (s.tapsInChain + 1 - 1) s.totalTapValues; simp) (by omega)
    (by show _ ≤ (s.tapDurations.set _ _).length; rw [List.length_set]; omega) (by omega)

/-- C14: no division by zero on the tap path. In every state reachable from the default
state (with any positive `minBeatLengthMS`) by `update`, `tap`, `resetTapChain` and setter
calls, when `addTapToChain` reaches the call of `getAverageTapDuration()` (the tap is not the
first of its chain) the divisor `amount = min(tapsInChain - 1, totalTapValues)` is at least
1 and non-zero as an `unsigned long`, `getAverageTapDuration()` returns a value that is at
least `minBeatLengthMS` and so not 0, and, the store having been inside the array,
`addTapToChain` returns with that value as the beat length it passed to `setBPM`. -/
theorem no_division_by_zero (hd : Header) (B0 : Nat) (bpm0 : ℚ) (m M : Nat)
    (s : ArduinoTapTempo) (ms : Nat)
    (hMAX : hd.MAX_TAP_VALUES = 20) (hW : 20 < hd.W) (hm : 0 < m)
    (hr : Reachable hd { defaults B0 bpm0 with minBeatLengthMS := m, maxBeatLengthMS := M } s)
    (htc : 0 < s.tapsInChain) :
    1 ≤ min ((afterStore hd s ms).tapsInChain - 1) (afterStore hd s ms).totalTapValues
      ∧ toULong hd.W ((min ((afterStore hd s ms).tapsInChain - 1)
            (afterStore hd s ms).totalTapValues : ℕ) : ℤ) ≠ 0
      ∧ ∃ avg, getAverageTapDuration hd (afterStore hd s ms) = some avg
          ∧ s.minBeatLengthMS ≤ avg ∧ avg ≠ 0
          ∧ (s.tapDurationIndex < s.tapDurations.length →
              ∃ s1, addTapToChain hd s ms = some s1 ∧ s1.beatLengthMS = avg) := by
  have hwf0 : ChainWF hd { defaults B0 bpm0 with minBeatLengthMS := m, maxBeatLengthMS := M } :=
    ⟨by show 1 ≤ 5; decide, by rw [hMAX]; show 5 ≤ 20; decide, by rw [hMAX]; rfl, hm⟩
  obtain ⟨w1, w2, w3, w4⟩ := reachable_chainWF hd _ s (by omega) hwf0 hr
  have hamount : min ((afterStore hd s ms).tapsInChain - 1) (afterStore hd s ms).totalTapValues
      = min s.tapsInChain s.totalTapValues := by
    show min (s.tapsInChain + 1 - 1) s.totalTapValues = _
    simp
  have hget := getAverage_afterStore_of_wf hd s ms htc w1 (by omega) (by omega)
  have hge : s.minBeatLengthMS ≤ max s.minBeatLengthMS
      (((s.tapDurations.set s.tapDurationIndex (storedDuration hd s ms)).take
          (min s.tapsInChain s.totalTapValues)).sum % hd.W
        / min s.tapsInChain s.totalTapValues) := le_max_left _ _
  refine ⟨by rw [hamount]; omega, ?_, _, hget, hge, by omega, fun hidx => ⟨_,
    addTapToChain_next_eq hd s ms _ htc hidx hget (by omega), rfl⟩⟩
  rw [hamount]
  unfold toULong
  rw [← Int.natCast_mod, Int.toNat_natCast, Nat.mod_eq_of_lt (by omega)]
  omega

/-- Witness for C14: the default state after a first tap at 0, and a tap at 500_000. -/
theorem no_division_by_zero_witness :
    ∃ avg, getAverageTapDuration Header.std
        (afterStore Header.std { defaults 500000 120 with tapsInChain := 1 } 500000) = some avg
      ∧ 250000 ≤ avg ∧ avg ≠ 0 := by
  have hact : isChainActive Header.std
      { defaults 500000 120 with minBeatLengthMS := 250000, maxBeatLengthMS := 3000000 } 0
      = true := by decide
  have ht : tap Header.std
      { defaults 500000 120 with minBeatLengthMS := 250000, maxBeatLengthMS := 3000000 } 0
      = some { defaults 500000 120 with tapsInChain := 1 } := by
    simp only [tap, hact, if_true]
    exact addTapToChain_first _ _ 0 rfl
  obtain ⟨-, -, avg, h1, h2, h3, -⟩ := no_division_by_zero Header.std 500000 120 250000 3000000
    { defaults 500000 120 with tapsInChain := 1 } 500000 rfl (by decide) (by decide)
    (Reachable.byTap 0 Reachable.start ht) (by decide)
  exact ⟨avg, h1, h2, h3⟩

/-! ## The missed-tap correction -/

theorem skipDetected_eq_true_iff (s : ArduinoTapTempo) (d : Nat) :
    skipDetected s d = true
      ↔ (s.skippedTapDetection = true ∧ 2 < s.tapsInChain ∧ s.lastTapSkipped = false
          ∧ (s.beatLengthMS : ℚ) * s.skippedTapThresholdLow < (d : ℚ)
          ∧ (d : ℚ) < (s.beatLengthMS : ℚ) * s.skippedTapThresholdHigh) := by
  simp only [skipDetected, Bool.and_eq_true, decide_eq_true_eq, Bool.not_eq_true', gt_iff_lt]
  tauto

/-- The step of `addTapToChain` on a tap that is not the first of its chain, in a
state with `tapDurationIndex < totalTapValues ≤` the size of `tapDurations`
(`totalTapValues < W`, `minBeatLengthMS > 0`). The call returns; with `d` the measured
interval and `B` the beat length before the call, the slot `tapDurations[tapDurationIndex]`
receives `d / 2` and `lastTapSkipped` becomes true exactly when detection is enabled, the
incremented `tapsInChain` exceeds 2, the flag was false and `B * low < d < B * high`;
otherwise the slot receives `d` and the flag becomes false. Afterwards the index is
`(tapDurationIndex + 1) mod totalTapValues` and `beatLengthMS` is what
`getAverageTapDuration()` returns. -/
theorem skip_correction_step (hd : Header) (s : ArduinoTapTempo) (ms : Nat)
    (htc : 0 < s.tapsInChain) (hidx : s.tapDurationIndex < s.totalTapValues)
    (hNlen : s.totalTapValues ≤ s.tapDurations.length) (hNW : s.totalTapValues < hd.W)
    (hmin : 0 < s.minBeatLengthMS) :
    ∃ s1, addTapToChain hd s ms = some s1
      ∧ ((s.skippedTapDetection = true ∧ 2 < s.tapsInChain + 1 ∧ s.lastTapSkipped = false
            ∧ (s.beatLengthMS : ℚ) * s.skippedTapThresholdLow < (measuredDuration hd s ms : ℚ)
            ∧ (measuredDuration hd s ms : ℚ)
                < (s.beatLengthMS : ℚ) * s.skippedTapThresholdHigh) →
          s1.tapDurations[s.tapDurationIndex]? = some (measuredDuration hd s ms / 2)
            ∧ s1.lastTapSkipped = true)
      ∧ (¬ (s.skippedTapDetection = true ∧ 2 < s.tapsInChain + 1 ∧ s.lastTapSkipped = false
            ∧ (s.beatLengthMS : ℚ) * s.skippedTapThresholdLow < (measuredDuration hd s ms : ℚ)
            ∧ (measuredDuration hd s ms : ℚ)
                < (s.beatLengthMS : ℚ) * s.skippedTapThresholdHigh) →
          s1.tapDurations[s.tapDurationIndex]? = some (measuredDuration hd s ms)
            ∧ s1.lastTapSkipped = false)
      ∧ s1.tapDurationIndex = (s.tapDurationIndex + 1) % s.totalTapValues
      ∧ getAverageTapDuration hd s1 = some s1.beatLengthMS := by
  have hget := getAverage_afterStore_of_wf hd s ms htc (by omega) hNlen hNW
  have hpos : 0 < max s.minBeatLengthMS
      (((s.tapDurations.set s.tapDurationIndex (storedDuration hd s ms)).take
          (min s.tapsInChain s.totalTapValues)).sum % hd.W
        / min s.tapsInChain s.totalTapValues) := lt_max_of_lt_left hmin
  have hiff := skipDetected_eq_true_iff
    { s with lastTapMS := ms, tapsInChain := s.tapsInChain + 1 } (measuredDuration hd s ms)
  have hslot : (s.tapDurations.set s.tapDurationIndex (storedDuration hd s ms))[
      s.tapDurationIndex]? = some (storedDuration hd s ms) := by
    simp [List.getElem?_set, show s.tapDurationIndex < s.tapDurations.length by omega]
  refine ⟨_, addTapToChain_next_eq hd s ms _ htc (by omega) hget hpos, ?_, ?_, ?_, hget⟩
  · intro hf
    have hsk := hiff.mpr hf
    refine ⟨?_, hsk⟩
    show (s.tapDurations.set s.tapDurationIndex (storedDuration hd s ms))[
      s.tapDurationIndex]? = _
    rw [hslot]
    simp only [storedDuration, hsk, if_true]
  · intro hf
    have hsk : skipDetected { s with lastTapMS := ms, tapsInChain := s.tapsInChain + 1 }
        (measuredDuration hd s ms) = false := by
      rw [← Bool.not_eq_true]
      exact fun h => hf (hiff.mp h)
    refine ⟨?_, hsk⟩
    show (s.tapDurations.set s.tapDurationIndex (storedDuration hd s ms))[
      s.tapDurationIndex]? = _
    rw [hslot]
    simp only [storedDuration, hsk]
    rfl
  · show (if s.tapDurationIndex + 1 = s.totalTapValues then 0 else s.tapDurationIndex + 1)
      = (s.tapDurationIndex + 1) % s.totalTapValues
    split_ifs with h
    · rw [h, Nat.mod_self]
    · rw [Nat.mod_eq_of_lt (by omega)]

/-- C16: the halving never fires twice in a row. If a call of `addTapToChain` halves its
interval it leaves `lastTapSkipped` true, and the next call does not halve; in any state
entered with `lastTapSkipped` true the call does not halve: the duration it stores is the
measured one, whatever its ratio to the beat length; and `resetTapChain` between two calls
leaves the flag as it is. -/
theorem never_halves_twice (hd : Header) (s s1 : ArduinoTapTempo) (ms1 ms2 : Nat)
    (h1 : addTapToChain hd s ms1 = some s1) :
    (halves hd s ms1 = true → s1.lastTapSkipped = true ∧ halves hd s1 ms2 = false)
      ∧ (∀ (s2 : ArduinoTapTempo) (t : Nat), s2.lastTapSkipped = true →
          halves hd s2 t = false ∧ storedDuration hd s2 t = measuredDuration hd s2 t)
      ∧ (∀ (sr : ArduinoTapTempo) (r : Nat), resetTapChain s1 r = some sr →
          sr.lastTapSkipped = s1.lastTapSkipped) := by
  have hflag : ∀ (s2 : ArduinoTapTempo) (t : Nat), s2.lastTapSkipped = true →
      skipDetected { s2 with lastTapMS := t, tapsInChain := s2.tapsInChain + 1 }
        (measuredDuration hd s2 t) = false := by
    intro s2 t h
    rw [← Bool.not_eq_true, skipDetected_eq_true_iff]
    rintro ⟨-, -, hf, -⟩
    have hf2 : s2.lastTapSkipped = false := hf
    rw [h] at hf2
    exact Bool.noConfusion hf2
  have hno : ∀ (s2 : ArduinoTapTempo) (t : Nat), s2.lastTapSkipped = true →
      halves hd s2 t = false ∧ storedDuration hd s2 t = measuredDuration hd s2 t := by
    intro s2 t h
    refine ⟨?_, ?_⟩
    · simp only [halves, hflag s2 t h, Bool.and_false]
    · simp only [storedDuration, hflag s2 t h]
      rfl
  refine ⟨?_, hno, ?_⟩
  · intro hh
    simp only [halves, Bool.and_eq_true, decide_eq_true_eq] at hh
    obtain ⟨h0, hsk⟩ := hh
    obtain ⟨-, avg, -, -, rfl⟩ := addTapToChain_next_some hd s s1 ms1 h0 h1
    exact ⟨hsk, (hno _ ms2 hsk).1⟩
  · intro sr r hr
    obtain ⟨-, rfl⟩ := resetTapChain_some s1 sr r hr
    rfl

/-- Witness for C16: entered with the flag set, a tap 1_000_000 µs after the last one at a
beat length of 500_000 µs is stored as measured. -/
theorem never_halves_twice_witness :
    halves Header.std
        { defaults 500000 120 with lastTapMS := 1500000, tapsInChain := 3
                                   lastTapSkipped := true } 2500000 = false
      ∧ storedDuration Header.std
          { defaults 500000 120 with lastTapMS := 1500000, tapsInChain := 3
                                     lastTapSkipped := true } 2500000
        = measuredDuration Header.std
          { defaults 500000 120 with lastTapMS := 1500000, tapsInChain := 3
                                     lastTapSkipped := true } 2500000 :=
  (never_halves_twice Header.std (defaults 500000 120)
    { defaults 500000 120 with lastTapMS := 500000, tapsInChain := 1 } 500000 1000000
    (addTapToChain_first _ _ 500000 rfl)).2.1
    { defaults 500000 120 with lastTapMS := 1500000, tapsInChain := 3, lastTapSkipped := true }
    2500000 rfl

/-! ## Edge detection and phase bookkeeping -/

theorem updateAll_held (hd : Header) (ts : List Nat) :
    ∀ s : ArduinoTapTempo, s.buttonDownOld = true →
      ∃ s2, updateAll hd s (ts.map fun t => (true, t)) = some s2
        ∧ s2.tapsInChain = s.tapsInChain ∧ s2.tapDurations = s.tapDurations
        ∧ s2.tapDurationIndex = s.tapDurationIndex ∧ s2.lastTapMS = s.lastTapMS
        ∧ s2.lastResetMS = s.lastResetMS ∧ s2.beatLengthMS = s.beatLengthMS
        ∧ s2.bpm = s.bpm := by
  induction ts with
  | nil => intro s _; exact ⟨s, rfl, rfl, rfl, rfl, rfl, rfl, rfl, rfl⟩
  | cons t ts ih =>
    intro s hs
    have hu := update_no_tap hd s true t (by rw [hs]; rfl)
    obtain ⟨s2, h2, a1, a2, a3, a4, a5, a6, a7⟩ := ih
      { s with buttonDownOld := true
               microsSinceResetOld := s.microsSinceReset
               microsSinceReset := usub hd.W t s.lastResetMS } rfl
    refine ⟨s2, ?_, a1, a2, a3, a4, a5, a6, a7⟩
    rw [List.map_cons, updateAll, hu, Option.some_bind]
    exact h2

/-- C17: edge detection and phase bookkeeping of `update`. The call runs `tap(ms)` exactly
when the button is down and the previous sample was not: then it is `tap` followed by the
bookkeeping, otherwise the bookkeeping alone. After every `update` that returns,
`buttonDownOld` is the sample, `microsSinceResetOld` is the `microsSinceReset` from before
the call and `microsSinceReset` is `(ms - lastResetMS) mod W` with `lastResetMS` as it
stands after the call. And once an `update` with the button down has returned, any number
of further updates with the button down return and leave `tapsInChain`, the durations, the
tap times and the tempo as they are: a held button adds one tap. -/
theorem update_edge_and_phase (hd : Header) (s : ArduinoTapTempo) (b : Bool) (ms : Nat)
    (hW : 0 < hd.W) :
    ((b = true ∧ s.buttonDownOld = false) →
        update hd s b ms = (tap hd s ms).bind fun st =>
          some { st with buttonDownOld := b
                         microsSinceResetOld := st.microsSinceReset
                         microsSinceReset := usub hd.W ms st.lastResetMS })
      ∧ (¬ (b = true ∧ s.buttonDownOld = false) →
        update hd s b ms = some { s with buttonDownOld := b
                                         microsSinceResetOld := s.microsSinceReset
                                         microsSinceReset := usub hd.W ms s.lastResetMS })
      ∧ (∀ s1, update hd s b ms = some s1 →
          s1.buttonDownOld = b ∧ s1.microsSinceResetOld = s.microsSinceReset
            ∧ ((s1.microsSinceReset : ℕ) : ℤ)
                = ((ms : ℤ) - (s1.lastResetMS : ℤ)) % (hd.W : ℤ))
      ∧ (∀ s1, update hd s true ms = some s1 → ∀ ts : List Nat,
          ∃ s2, updateAll hd s1 (ts.map fun t => (true, t)) = some s2
            ∧ s2.tapsInChain = s1.tapsInChain ∧ s2.tapDurations = s1.tapDurations
            ∧ s2.tapDurationIndex = s1.tapDurationIndex ∧ s2.lastTapMS = s1.lastTapMS
            ∧ s2.lastResetMS = s1.lastResetMS ∧ s2.beatLengthMS = s1.beatLengthMS
            ∧ s2.bpm = s1.bpm) := by
  refine ⟨?_, ?_, ?_, ?_⟩
  · rintro ⟨hb, hold⟩
    simp only [update, hb, hold, Bool.not_false, Bool.and_self, if_true]
  · intro hne
    apply update_no_tap
    cases b <;> cases hold : s.buttonDownOld <;> simp_all
  · intro s1 h
    obtain ⟨st, hst, rfl⟩ := update_some hd s s1 b ms h
    have hf : st.microsSinceReset = s.microsSinceReset := by
      split_ifs at hst with hb
      · exact (tap_frame hd s st ms hst).2.2.2.2.2.2.2.2.2.1
      · cases hst
        rfl
    exact ⟨rfl, hf, usub_eq_emod _ _ _ hW⟩
  · intro s1 h ts
    obtain ⟨st, -, rfl⟩ := update_some hd s s1 true ms h
    exact updateAll_held hd ts _ rfl

/-- Witness for C17: a poll of the default state without a press at 1_234 µs. -/
theorem update_edge_and_phase_witness :
    update Header.std (defaults 500000 120) false 1234
      = some { defaults 500000 120 with
          buttonDownOld := false
          microsSinceResetOld := (defaults 500000 120).microsSinceReset
          microsSinceReset := usub Header.std.W 1234 (defaults 500000 120).lastResetMS } :=
  (update_edge_and_phase Header.std (defaults 500000 120) false 1234 (by decide)).2.1
    (by simp)

/-! ## The stored durations and the window of the beat length -/

/-- C19, as stated, fails. From the default state, a press at 10_000_000 µs starts a chain
and a second press 100_000 µs later stores the interval 100_000 in slot 0, below
`minBeatLengthMS = 250_000`. -/
theorem written_slot_below_min :
    ¬ ∀ (evs : List (Bool × Nat)) (s : ArduinoTapTempo),
        updateAll Header.std (defaults 500000 120) evs = some s → WrittenSlotsAtLeastMin s := by
  intro h
  have hval : (updateAll Header.std (defaults 500000 120)
      [(true, 10000000), (false, 10050000), (true, 10100000)]).map
        (fun s => (s.tapsInChain, s.totalTapValues, s.minBeatLengthMS, s.tapDurations.getD 0 0))
      = some (2, 5, 250000, 100000) := by
    decide
  cases hrun : updateAll Header.std (defaults 500000 120)
      [(true, 10000000), (false, 10050000), (true, 10100000)] with
  | none => rw [hrun] at hval; exact Option.noConfusion hval
  | some s =>
    rw [hrun, Option.map_some', Option.some.injEq, Prod.mk.injEq, Prod.mk.injEq,
      Prod.mk.injEq] at hval
    obtain ⟨h1, h2, h3, h4⟩ := hval
    have h1b : s.tapsInChain = 2 := h1
    have h2b : s.totalTapValues = 5 := h2
    have h3b : s.minBeatLengthMS = 250000 := h3
    have h4b : s.tapDurations.getD 0 0 = 100000 := h4
    have := h _ s hrun 0 (by rw [h1b, h2b]; decide)
    rw [h3b, h4b] at this
    exact absurd this (by decide)

/-- C19, amended: the slot `addTapToChain` writes holds the measured interval, or half of
it when the missed-beat condition holds; it is not raised to `minBeatLengthMS`. What is
at least `minBeatLengthMS` is the beat length the call computes from the slots. Stated for
a tap that is not the first of its chain, in a state with the index inside the array,
`1 ≤ totalTapValues ≤` the size of `tapDurations`, `totalTapValues < W` and
`minBeatLengthMS > 0`: the call returns with these properties. -/
theorem written_slot_is_measured (hd : Header) (s : ArduinoTapTempo) (ms : Nat)
    (htc : 0 < s.tapsInChain) (hidx : s.tapDurationIndex < s.tapDurations.length)
    (hN1 : 1 ≤ s.totalTapValues)
    (hNlen : s.totalTapValues ≤ s.tapDurations.length) (hNW : s.totalTapValues < hd.W)
    (hmin : 0 < s.minBeatLengthMS) :
    ∃ s1, addTapToChain hd s ms = some s1
      ∧ (s1.tapDurations[s.tapDurationIndex]? = some (measuredDuration hd s ms)
        ∨ s1.tapDurations[s.tapDurationIndex]? = some (measuredDuration hd s ms / 2))
      ∧ s1.minBeatLengthMS = s.minBeatLengthMS
      ∧ s1.minBeatLengthMS ≤ s1.beatLengthMS := by
  have hget := getAverage_afterStore_of_wf hd s ms htc (by omega) hNlen hNW
  have hpos : 0 < max s.minBeatLengthMS
      (((s.tapDurations.set s.tapDurationIndex (storedDuration hd s ms)).take
          (min s.tapsInChain s.totalTapValues)).sum % hd.W
        / min s.tapsInChain s.totalTapValues) := lt_max_of_lt_left hmin
  have hslot : (s.tapDurations.set s.tapDurationIndex (storedDuration hd s ms))[
      s.tapDurationIndex]? = some (storedDuration hd s ms) := by
    simp [List.getElem?_set, hidx]
  refine ⟨_, addTapToChain_next_eq hd s ms _ htc hidx hget hpos, ?_, rfl,
    le_max_left _ _⟩
  show (s.tapDurations.set s.tapDurationIndex (storedDuration hd s ms))[
      s.tapDurationIndex]? = _ ∨ (s.tapDurations.set s.tapDurationIndex
        (storedDuration hd s ms))[s.tapDurationIndex]? = _
  rw [hslot]
  unfold storedDuration
  split_ifs
  · right; rfl
  · left; rfl

/-- Witness for C19: the defaults at 120 BPM, one tap in the chain at 10_000_000, and a tap
100_000 µs later. -/
theorem written_slot_is_measured_witness :
    ∃ s1, addTapToChain Header.std
        { defaults 500000 120 with lastTapMS := 10000000, tapsInChain := 1 } 10100000 = some s1
      ∧ (s1.tapDurations[0]? = some (measuredDuration Header.std
            { defaults 500000 120 with lastTapMS := 10000000, tapsInChain := 1 } 10100000)
        ∨ s1.tapDurations[0]? = some (measuredDuration Header.std
            { defaults 500000 120 with lastTapMS := 10000000, tapsInChain := 1 } 10100000 / 2))
      ∧ s1.minBeatLengthMS = 250000
      ∧ s1.minBeatLengthMS ≤ s1.beatLengthMS :=
  written_slot_is_measured Header.std
    { defaults 500000 120 with lastTapMS := 10000000, tapsInChain := 1 } 10100000
    (by decide) (by decide) (by decide) (by decide) (by decide) (by decide)

theorem mem_zeroFirst (n : Nat) (ds : List Nat) (d : Nat) (h : d ∈ zeroFirst n ds) :
    d = 0 ∨ d ∈ ds := by
  induction n generalizing ds with
  | zero => exact Or.inr h
  | succ n ih =>
    cases ds with
    | nil => exact Or.inr h
    | cons a ds =>
      simp only [zeroFirst, List.mem_cons] at h
      rcases h with h | h
      · exact Or.inl h
      · rcases ih ds h with h2 | h2
        · exact Or.inl h2
        · exact Or.inr (List.mem_cons_of_mem _ h2)

theorem sum_le_of_forall_lt (l : List Nat) (M : Nat) (h : ∀ d ∈ l, d < M) :
    l.sum ≤ l.length * (M - 1) := by
  induction l with
  | nil => simp
  | cons a l ih =>
    have ha : a < M := h a (List.mem_cons_self _ _)
    have hl := ih fun d hd => h d (List.mem_cons_of_mem _ hd)
    simp only [List.sum_cons, List.length_cons, Nat.add_mul, Nat.one_mul]
    omega

theorem average_lt_of_forall_lt (l : List Nat) (M W : Nat) (hl : 0 < l.length)
    (h : ∀ d ∈ l, d < M) : l.sum % W / l.length < M := by
  have h1 : l.sum % W ≤ l.sum := Nat.mod_le _ _
  have h2 := sum_le_of_forall_lt l M h
  have hM : 0 < M := by
    cases l with
    | nil => simp at hl
    | cons a l => exact Nat.lt_of_le_of_lt (Nat.zero_le a) (h a (List.mem_cons_self _ _))
  have h3 : l.sum % W / l.length ≤ l.length * (M - 1) / l.length :=
    Nat.div_le_div_right (h1.trans h2)
  rw [Nat.mul_div_cancel_left _ hl] at h3
  omega

theorem tap_window_step (hd : Header) (s : ArduinoTapTempo) (ms : Nat)
    (hmin : 0 < s.minBeatLengthMS) (hmm : s.minBeatLengthMS < s.maxBeatLengthMS)
    (hslots : ∀ d ∈ s.tapDurations, d < s.maxBeatLengthMS)
    (hN1 : 1 ≤ s.totalTapValues)
    (hNlen : s.totalTapValues ≤ s.tapDurations.length) (hNW : s.totalTapValues < hd.W)
    (hinc : s.lastTapMS < ms) (hms : ms < hd.W)
    (hw : s.lastTapMS + s.maxBeatLengthMS < hd.W)
    (hstore : (isChainActive hd s ms = true ∧ 0 < s.tapsInChain) →
      s.tapDurationIndex < s.tapDurations.length) :
    ∃ s1, tap hd s ms = some s1 ∧ TapFrame s s1 ∧ s1.lastTapMS = ms
      ∧ (∀ d ∈ s1.tapDurations, d < s1.maxBeatLengthMS)
      ∧ (s.tapDurationIndex < s.totalTapValues → s1.tapDurationIndex < s1.totalTapValues)
      ∧ ((isChainActive hd s ms = true ∧ 0 < s.tapsInChain) →
          s1.tapDurations[s.tapDurationIndex]? = some (storedDuration hd s ms)
            ∧ storedDuration hd s ms < s.maxBeatLengthMS
            ∧ s.minBeatLengthMS ≤ s1.beatLengthMS ∧ s1.beatLengthMS < s.maxBeatLengthMS)
      ∧ (¬ (isChainActive hd s ms = true ∧ 0 < s.tapsInChain) →
          s1.beatLengthMS = s.beatLengthMS ∧ s1.tapsInChain = 1)
      ∧ (s.lastTapMS + s.maxBeatLengthMS ≤ ms → isChainActive hd s ms = false) := by
  have hlate : s.lastTapMS + s.maxBeatLengthMS ≤ ms → isChainActive hd s ms = false := by
    intro h
    simp only [isChainActive, uadd_of_lt _ _ _ hw, gt_iff_lt,
      decide_eq_false (Nat.not_lt.mpr h), Bool.false_and]
  cases hact : isChainActive hd s ms with
  | false =>
    refine ⟨_, tap_inactive hd s ms hNlen hact, ?_, rfl, ?_, ?_, ?_, ?_, fun _ => rfl⟩
    · exact ⟨rfl, rfl, rfl, rfl, rfl, rfl, rfl, rfl, length_zeroFirst _ _, rfl, rfl, rfl, rfl⟩
    · intro d hd1
      rcases mem_zeroFirst _ _ d hd1 with h0 | hmem
      · rw [h0]
        show 0 < s.maxBeatLengthMS
        omega
      · exact hslots d hmem
    · intro _
      show 0 < s.totalTapValues
      omega
    · rintro ⟨h, -⟩
      exact Bool.noConfusion h
    · intro _
      exact ⟨rfl, rfl⟩
  | true =>
    rcases Nat.eq_zero_or_pos s.tapsInChain with h0 | h0
    · have ht : tap hd s ms = some { s with lastTapMS := ms, tapsInChain := 1 } := by
        simp only [tap, hact, if_true]
        exact addTapToChain_first hd s ms h0
      refine ⟨_, ht, ?_, rfl, hslots, fun hidx => hidx, ?_, ?_, fun h => ?_⟩
      · exact ⟨rfl, rfl, rfl, rfl, rfl, rfl, rfl, rfl, rfl, rfl, rfl, rfl, rfl⟩
      · rintro ⟨-, h⟩
        omega
      · intro _
        exact ⟨rfl, rfl⟩
      · rw [hlate h] at hact
        exact Bool.noConfusion hact
    · have hidxlen : s.tapDurationIndex < s.tapDurations.length := hstore ⟨hact, h0⟩
      have hd1 : ms < s.lastTapMS + s.maxBeatLengthMS := by
        by_contra hc
        rw [hlate (Nat.not_lt.mp hc)] at hact
        exact Bool.noConfusion hact
      have hmeas : measuredDuration hd s ms = ms - s.lastTapMS :=
        measuredDuration_of_lt hd s ms hinc hms
      have hst : storedDuration hd s ms < s.maxBeatLengthMS := by
        unfold storedDuration
        split_ifs
        · have := Nat.div_le_self (measuredDuration hd s ms) 2
          omega
        · omega
      have hset : ∀ d ∈ s.tapDurations.set s.tapDurationIndex (storedDuration hd s ms),
          d < s.maxBeatLengthMS := by
        intro d hd1
        rcases List.mem_or_eq_of_mem_set hd1 with h | h
        · exact hslots d h
        · rw [h]
          exact hst
      have hget := getAverage_afterStore_of_wf hd s ms h0 (by omega) hNlen hNW
      have hlenm : ((s.tapDurations.set s.tapDurationIndex (storedDuration hd s ms)).take
          (min s.tapsInChain s.totalTapValues)).length = min s.tapsInChain s.totalTapValues := by
        rw [List.length_take, List.length_set]
        omega
      have havg := average_lt_of_forall_lt
        ((s.tapDurations.set s.tapDurationIndex (storedDuration hd s ms)).take
          (min s.tapsInChain s.totalTapValues)) s.maxBeatLengthMS hd.W
        (by rw [hlenm]; omega) (fun d hd1 => hset d (List.mem_of_mem_take hd1))
      rw [hlenm] at havg
      have hpos : 0 < max s.minBeatLengthMS
          (((s.tapDurations.set s.tapDurationIndex (storedDuration hd s ms)).take
              (min s.tapsInChain s.totalTapValues)).sum % hd.W
            / min s.tapsInChain s.totalTapValues) := lt_max_of_lt_left hmin
      have ht : tap hd s ms = some { afterStore hd s ms with
          beatLengthMS := max s.minBeatLengthMS
            (((s.tapDurations.set s.tapDurationIndex (storedDuration hd s ms)).take
                (min s.tapsInChain s.totalTapValues)).sum % hd.W
              / min s.tapsInChain s.totalTapValues)
          bpm := roundedBPM hd s.sigFigs (max s.minBeatLengthMS
            (((s.tapDurations.set s.tapDurationIndex (storedDuration hd s ms)).take
                (min s.tapsInChain s.totalTapValues)).sum % hd.W
              / min s.tapsInChain s.totalTapValues)) } := by
        simp only [tap, hact, if_true]
        exact addTapToChain_next_eq hd s ms _ h0 hidxlen hget hpos
      refine ⟨_, ht, ?_, rfl, hset, ?_, ?_, ?_, fun h => ?_⟩
      · refine ⟨rfl, rfl, rfl, rfl, rfl, rfl, rfl, rfl, ?_, rfl, rfl, rfl, rfl⟩
        show (s.tapDurations.set _ _).length = _
        rw [List.length_set]
      · intro hidx
        show (if s.tapDurationIndex + 1 = s.totalTapValues then 0
          else s.tapDurationIndex + 1) < s.totalTapValues
        split_ifs <;> omega
      · intro _
        refine ⟨?_, hst, le_max_left _ _, max_lt hmm havg⟩
        show (s.tapDurations.set s.tapDurationIndex (storedDuration hd s ms))[
          s.tapDurationIndex]? = _
        simp [List.getElem?_set, hidxlen]
      · intro hn
        exact absurd ⟨rfl, h0⟩ hn
      · omega

theorem tap_some_store_inside (hd : Header) (s s1 : ArduinoTapTempo) (ms : Nat)
    (h : tap hd s ms = some s1) (hst : isChainActive hd s ms = true ∧ 0 < s.tapsInChain) :
    s.tapDurationIndex < s.tapDurations.length := by
  rcases tap_cases hd s s1 ms h with ⟨-, ha⟩ | ⟨hin, -⟩
  · exact (addTapToChain_next_some hd s s1 ms hst.2 ha).1
  · rw [hst.1] at hin
    exact Bool.noConfusion hin

theorem tapAll_window_of_some (hd : Header) (ts : List Nat) :
    ∀ s s2 : ArduinoTapTempo, tapAll hd s ts = some s2 →
      0 < s.minBeatLengthMS → s.minBeatLengthMS < s.maxBeatLengthMS →
      (∀ d ∈ s.tapDurations, d < s.maxBeatLengthMS) →
      1 ≤ s.totalTapValues → s.totalTapValues ≤ s.tapDurations.length →
      s.totalTapValues < hd.W → List.Chain (· < ·) s.lastTapMS ts →
      s.lastTapMS + s.maxBeatLengthMS < hd.W → (∀ t ∈ ts, t + s.maxBeatLengthMS < hd.W) →
      TapFrame s s2 ∧ (∀ d ∈ s2.tapDurations, d < s2.maxBeatLengthMS)
        ∧ (s2.beatLengthMS = s.beatLengthMS
          ∨ (s.minBeatLengthMS ≤ s2.beatLengthMS ∧ s2.beatLengthMS < s.maxBeatLengthMS)) := by
  induction ts with
  | nil =>
    intro s s2 h _ _ hslots _ _ _ _ _ _
    cases h
    exact ⟨⟨rfl, rfl, rfl, rfl, rfl, rfl, rfl, rfl, rfl, rfl, rfl, rfl, rfl⟩, hslots, Or.inl rfl⟩
  | cons t ts ih =>
    intro s s2 h hmin hmm hslots hN1 hNlen hNW hchain hw hts
    rw [List.chain_cons] at hchain
    have htW := hts t (List.mem_cons_self _ _)
    rw [tapAll] at h
    cases ht : tap hd s t with
    | none => rw [ht] at h; exact Option.noConfusion h
    | some s1 =>
      rw [ht, Option.some_bind] at h
      obtain ⟨s1', h1, hf, hlast, hslots1, -, hupd, hnot, -⟩ :=
        tap_window_step hd s t hmin hmm hslots hN1 hNlen hNW hchain.1 (by omega) hw
          (tap_some_store_inside hd s s1 t ht)
      rw [ht] at h1
      cases h1
      have hf' := hf
      obtain ⟨-, -, -, -, fN, -, fmin, fmax, flen, -, -, -, -⟩ := hf'
      obtain ⟨hf2, hslots2, hB2⟩ := ih s1 s2 h (by omega) (by omega) hslots1 (by omega)
        (by omega) (by omega) (by rw [hlast]; exact hchain.2) (by rw [hlast, fmax]; exact htW)
        (fun u hu => by rw [fmax]; exact hts u (List.mem_cons_of_mem _ hu))
      refine ⟨hf.trans hf2, hslots2, ?_⟩
      rw [fmin, fmax] at hB2
      rcases hB2 with hB | hB
      · by_cases hc : isChainActive hd s t = true ∧ 0 < s.tapsInChain
        · right
          rw [hB]
          exact (hupd hc).2.2
        · left
          rw [hB]
          exact (hnot hc).1
      · exact Or.inr hB

theorem tapAll_returns (hd : Header) (ts : List Nat) :
    ∀ s : ArduinoTapTempo, 0 < s.minBeatLengthMS → s.minBeatLengthMS < s.maxBeatLengthMS →
      (∀ d ∈ s.tapDurations, d < s.maxBeatLengthMS) →
      s.tapDurationIndex < s.totalTapValues → s.totalTapValues ≤ s.tapDurations.length →
      s.totalTapValues < hd.W → List.Chain (· < ·) s.lastTapMS ts →
      s.lastTapMS + s.maxBeatLengthMS < hd.W → (∀ t ∈ ts, t + s.maxBeatLengthMS < hd.W) →
      ∃ s1, tapAll hd s ts = some s1 := by
  induction ts with
  | nil => intro s _ _ _ _ _ _ _ _ _; exact ⟨s, rfl⟩
  | cons t ts ih =>
    intro s hmin hmm hslots hidx hNlen hNW hchain hw hts
    rw [List.chain_cons] at hchain
    have htW := hts t (List.mem_cons_self _ _)
    obtain ⟨s1, h1, hf, hlast, hslots1, hidx1, -, -, -⟩ :=
      tap_window_step hd s t hmin hmm hslots (by omega) hNlen hNW hchain.1 (by omega) hw
        (fun _ => by omega)
    obtain ⟨-, -, -, -, fN, -, fmin, fmax, flen, -, -, -, -⟩ := hf
    obtain ⟨s2, h2⟩ := ih s1 (by omega) (by omega) hslots1 (hidx1 hidx) (by omega)
      (by omega) (by rw [hlast]; exact hchain.2) (by rw [hlast, fmax]; exact htW)
      (fun u hu => by rw [fmax]; exact hts u (List.mem_cons_of_mem _ hu))
    exact ⟨s2, by rw [tapAll, h1, Option.some_bind]; exact h2⟩

/-- C20: the beat length stays inside the configured window. Take a state with
`0 < minBeatLengthMS < maxBeatLengthMS`, all slots of `tapDurations` below
`maxBeatLengthMS` and `1 ≤ totalTapValues ≤` the size of the array (`totalTapValues < W`),
and taps at strictly increasing times, the times and the deadline
`lastTapMS + maxBeatLengthMS` staying below `W`. A tap that returns keeps the bounds and
the slot property; when it updates the tempo (the chain is active and the tap is not its
first) the interval it stores is below `maxBeatLengthMS` and afterwards
`minBeatLengthMS ≤ beatLengthMS < maxBeatLengthMS`; otherwise it leaves the beat length and
`tapsInChain` is 1; a tap at or after `lastTapMS + maxBeatLengthMS` finds the chain inactive.
After any run of such taps the beat length is the initial one or lies in the window; and
the run does return when the write index starts below `totalTapValues`. -/
theorem beat_length_stays_in_window (hd : Header) (s : ArduinoTapTempo)
    (hmin : 0 < s.minBeatLengthMS) (hmm : s.minBeatLengthMS < s.maxBeatLengthMS)
    (hslots : ∀ d ∈ s.tapDurations, d < s.maxBeatLengthMS)
    (hN1 : 1 ≤ s.totalTapValues)
    (hNlen : s.totalTapValues ≤ s.tapDurations.length) (hNW : s.totalTapValues < hd.W)
    (hw : s.lastTapMS + s.maxBeatLengthMS < hd.W) :
    (∀ ms s1, s.lastTapMS < ms → ms < hd.W → tap hd s ms = some s1 →
        s1.minBeatLengthMS = s.minBeatLengthMS ∧ s1.maxBeatLengthMS = s.maxBeatLengthMS
        ∧ (∀ d ∈ s1.tapDurations, d < s1.maxBeatLengthMS)
        ∧ ((isChainActive hd s ms = true ∧ 0 < s.tapsInChain) →
            s1.tapDurations[s.tapDurationIndex]? = some (storedDuration hd s ms)
              ∧ storedDuration hd s ms < s.maxBeatLengthMS
              ∧ s.minBeatLengthMS ≤ s1.beatLengthMS ∧ s1.beatLengthMS < s.maxBeatLengthMS)
        ∧ (¬ (isChainActive hd s ms = true ∧ 0 < s.tapsInChain) →
            s1.beatLengthMS = s.beatLengthMS ∧ s1.tapsInChain = 1)
        ∧ (s.lastTapMS + s.maxBeatLengthMS ≤ ms → isChainActive hd s ms = false))
    ∧ (∀ (ts : List Nat) (s1 : ArduinoTapTempo), List.Chain (· < ·) s.lastTapMS ts →
        (∀ t ∈ ts, t + s.maxBeatLengthMS < hd.W) → tapAll hd s ts = some s1 →
        (∀ d ∈ s1.tapDurations, d < s1.maxBeatLengthMS)
          ∧ (s1.beatLengthMS = s.beatLengthMS
            ∨ (s.minBeatLengthMS ≤ s1.beatLengthMS
              ∧ s1.beatLengthMS < s.maxBeatLengthMS)))
    ∧ (s.tapDurationIndex < s.totalTapValues →
        ∀ ts : List Nat, List.Chain (· < ·) s.lastTapMS ts →
          (∀ t ∈ ts, t + s.maxBeatLengthMS < hd.W) → ∃ s1, tapAll hd s ts = some s1) := by
  refine ⟨?_, ?_, ?_⟩
  · intro ms s1 hinc hms h
    obtain ⟨s1', h1, hf, -, h3, -, h5, h6, h7⟩ :=
      tap_window_step hd s ms hmin hmm hslots hN1 hNlen hNW hinc hms hw
        (tap_some_store_inside hd s s1 ms h)
    rw [h] at h1
    cases h1
    exact ⟨hf.2.2.2.2.2.2.1, hf.2.2.2.2.2.2.2.1, h3, h5, h6, h7⟩
  · intro ts s1 hchain hts h
    exact (tapAll_window_of_some hd ts s s1 h hmin hmm hslots hN1 hNlen hNW hchain hw hts).2
  · intro hidx ts hchain hts
    exact tapAll_returns hd ts s hmin hmm hslots hidx hNlen hNW hchain hw hts

/-- Witness for C20: the default state at 120 BPM and taps at 1_000_000, 1_400_000 and
2_100_000 µs. -/
theorem beat_length_stays_in_window_witness :
    ∃ s1, tapAll Header.std (defaults 500000 120) [1000000, 1400000, 2100000] = some s1
      ∧ (∀ d ∈ s1.tapDurations, d < s1.maxBeatLengthMS)
      ∧ (s1.beatLengthMS = 500000
        ∨ (250000 ≤ s1.beatLengthMS ∧ s1.beatLengthMS < 3000000)) := by
  have hch : List.Chain (· < ·) (defaults 500000 120).lastTapMS
      [1000000, 1400000, 2100000] :=
    List.Chain.cons (by decide) (List.Chain.cons (by decide)
      (List.Chain.cons (by decide) List.Chain.nil))
  obtain ⟨-, h2, h3⟩ := beat_length_stays_in_window Header.std (defaults 500000 120)
    (by decide) (by decide) (by decide) (by decide) (by decide) (by decide) (by decide)
  obtain ⟨s1, h1⟩ := h3 (by decide) [1000000, 1400000, 2100000] hch (by decide)
  exact ⟨s1, h1, h2 _ s1 hch (by decide) h1⟩

/-! ## The write index after `setTotalTapValues` in the middle of a chain -/

theorem runaway_step (j : Nat) (s : ArduinoTapTempo) (h3 : 3 ≤ j) (h20 : j < 20)
    (h : RunawayInv j s) :
    ∃ s1, tap Header.std s ((j + 1) * 500000) = some s1 ∧ RunawayInv (j + 1) s1 := by
  obtain ⟨hlast, htc, hidx, hN, htake, hlen, hB, hb, hmx, hmn, hlo⟩ := h
  have hW : Header.std.W = 4294967296 := rfl
  have hact : isChainActive Header.std s ((j + 1) * 500000) = true :=
    isChainActive_true_of_before_deadlines Header.std s _
      (by rw [hlast, hmx, hW]; omega) (by rw [hlast, hB, hb, hW]; omega)
      (by rw [hlast, hmx]; omega) (by rw [hlast, hB, hb]; omega)
  have hmeas : measuredDuration Header.std s ((j + 1) * 500000) = 500000 := by
    rw [measuredDuration_of_lt Header.std s _ (by rw [hlast]; omega) (by rw [hW]; omega),
      hlast]
    omega
  have hskip : skipDetected { s with lastTapMS := (j + 1) * 500000
                                     tapsInChain := s.tapsInChain + 1 } 500000 = false := by
    apply skipDetected_false_of_le
    show ((500000 : ℕ) : ℚ) ≤ (s.beatLengthMS : ℚ) * s.skippedTapThresholdLow
    rw [hB, hlo]
    norm_num
  have hstored : storedDuration Header.std s ((j + 1) * 500000) = 500000 := by
    simp only [storedDuration, hmeas, hskip]
    rfl
  have htake2 : (s.tapDurations.set s.tapDurationIndex 500000).take 2
      = List.replicate 2 500000 :=
    take_set_replicate_inside _ _ _ _ htake
  have hstep := tap_step_const Header.std s ((j + 1) * 500000) 500000 2 hact (by omega)
    (by omega) hstored (by rw [htc, hN]; omega) (by decide) (by omega) (by rw [hW]; decide)
    htake2 (by omega) (by decide)
  refine ⟨_, hstep, rfl, ?_, ?_, hN, ?_, ?_, rfl, hb, hmx, hmn, hlo⟩
  · show s.tapsInChain + 1 = j + 1 + 1
    omega
  · show (if s.tapDurationIndex + 1 = s.totalTapValues then 0 else s.tapDurationIndex + 1)
      = j + 1
    rw [if_neg (by omega)]
    omega
  · show (s.tapDurations.set s.tapDurationIndex
      (storedDuration Header.std s ((j + 1) * 500000))).take 2 = _
    rw [hstored]
    exact htake2
  · show (s.tapDurations.set _ _).length = 20
    rw [List.length_set]
    exact hlen

theorem runaway_run (n : Nat) :
    ∀ (j : Nat) (s : ArduinoTapTempo), 3 ≤ j → j + n ≤ 20 → RunawayInv j s →
      ∃ s1, tapAll Header.std s ((List.range' (j + 1) n).map fun k => k * 500000) = some s1
        ∧ RunawayInv (j + n) s1 := by
  induction n with
  | zero =>
    intro j s _ _ h
    exact ⟨s, rfl, h⟩
  | succ n ih =>
    intro j s h3 hjn h
    obtain ⟨s1, h1, hinv1⟩ := runaway_step j s h3 (by omega) h
    obtain ⟨s2, h2, hinv2⟩ := ih (j + 1) s1 (by omega) (by omega) hinv1
    refine ⟨s2, ?_, ?_⟩
    · rw [List.range'_succ, List.map_cons, tapAll, h1, Option.some_bind]
      exact h2
    · have : j + (n + 1) = j + 1 + n := by omega
      rw [this]
      exact hinv2

theorem runaway_out_of_bounds (s : ArduinoTapTempo) (h : RunawayInv 20 s) :
    tap Header.std s 10500000 = none := by
  obtain ⟨hlast, htc, hidx, hN, htake, hlen, hB, hb, hmx, hmn, hlo⟩ := h
  have hW : Header.std.W = 4294967296 := rfl
  have hact : isChainActive Header.std s 10500000 = true :=
    isChainActive_true_of_before_deadlines Header.std s _
      (by rw [hlast, hmx, hW]; decide) (by rw [hlast, hB, hb, hW]; decide)
      (by rw [hlast, hmx]; decide) (by rw [hlast, hB, hb]; decide)
  have h1 : ¬ (s.tapsInChain + 1 = 1) := by omega
  have h2 : ¬ (s.tapDurationIndex < s.tapDurations.length) := by omega
  simp only [tap, hact, if_true, addTapToChain, if_neg h1, if_neg h2]

theorem runaway_start :
    ∃ s4, tapAll Header.std (defaults 500000 120) [0, 500000, 1000000, 1500000] = some s4
      ∧ s4.tapDurationIndex = 3 ∧ s4.totalTapValues = 5
      ∧ RunawayInv 3 (setTotalTapValues Header.std s4 2) := by
  obtain ⟨s1, h1, hinv1⟩ := steady_first Header.std (defaults 500000 120) 0 500000
    (by decide) (by decide) (Or.inr ⟨rfl, rfl⟩)
  obtain ⟨s4, h4, hinv4⟩ := steady_run Header.std (defaults 500000 120) 0 500000 2
    (by decide) (by decide) (by decide) (by decide) (by decide) (by decide)
    (by show (1 : ℚ) ≤ 7 / 4; norm_num) (by decide) (by decide) (by decide) 3 0 s1 hinv1
    (by decide)
  obtain ⟨hlast, htc, -, hidxeq, htake, hlen, hN, hb, hmn, hmx, hlo, -, -, -, hB⟩ := hinv4
  have hidx : s4.tapDurationIndex = 3 := hidxeq (by decide)
  have hBp : s4.beatLengthMS = 500000 := by
    rcases hB with ⟨h0, -⟩ | ⟨-, h, -⟩
    · exact absurd h0 (by decide)
    · exact h
  have htake2 : s4.tapDurations.take 2 = [500000, 500000] := by
    have h3 : s4.tapDurations.take 2 = (s4.tapDurations.take 3).take 2 := by
      rw [List.take_take]
      rfl
    have h5 : s4.tapDurations.take 3 = List.replicate 3 500000 := htake
    rw [h3, h5]
    rfl
  refine ⟨s4, ?_, hidx, hN, ?_⟩
  · rw [tapAll, h1, Option.some_bind]
    exact h4
  · exact ⟨by show s4.lastTapMS = 3 * 500000; rw [hlast], htc, hidx, rfl, htake2, hlen, hBp,
      hb, hmx, hmn, hlo⟩

/-- C15: the index clause fails in a state the interface reaches. From the default state at
120 BPM, taps at 0, 500_000, 1_000_000, 1_500_000 and then `setTotalTapValues(2)` leave
`tapDurationIndex = 3` with `totalTapValues = 2` in a chain of four taps. The next call
`addTapToChain(2_000_000)` returns, stores the measured interval 500_000 in slot 3 and
leaves `lastTapSkipped` false, but moves the index to 4, which is not
`(3 + 1) mod 2 = 0`: the index is reset only when it equals `totalTapValues`. -/
theorem skip_step_index_not_modulo :
    ∃ s4 s5, tapAll Header.std (defaults 500000 120) [0, 500000, 1000000, 1500000] = some s4
      ∧ (setTotalTapValues Header.std s4 2).tapDurationIndex = 3
      ∧ (setTotalTapValues Header.std s4 2).totalTapValues = 2
      ∧ (setTotalTapValues Header.std s4 2).tapsInChain = 4
      ∧ measuredDuration Header.std (setTotalTapValues Header.std s4 2) 2000000 = 500000
      ∧ addTapToChain Header.std (setTotalTapValues Header.std s4 2) 2000000 = some s5
      ∧ s5.tapDurations[3]? = some 500000 ∧ s5.lastTapSkipped = false
      ∧ s5.totalTapValues = 2 ∧ s5.tapDurationIndex = 4
      ∧ s5.tapDurationIndex ≠ ((setTotalTapValues Header.std s4 2).tapDurationIndex + 1)
          % (setTotalTapValues Header.std s4 2).totalTapValues := by
  obtain ⟨s4, h4, hidx, -, hinv⟩ := runaway_start
  have hinv3 := hinv
  obtain ⟨hlast, htc, hidx3, hN, htake, hlen, hB, hb, hmx, hmn, hlo⟩ := hinv3
  have hW : Header.std.W = 4294967296 := rfl
  have hact : isChainActive Header.std (setTotalTapValues Header.std s4 2) 2000000 = true :=
    isChainActive_true_of_before_deadlines Header.std _ _
      (by rw [hlast, hmx, hW]; decide) (by rw [hlast, hB, hb, hW]; decide)
      (by rw [hlast, hmx]; decide) (by rw [hlast, hB, hb]; decide)
  have hmeas : measuredDuration Header.std (setTotalTapValues Header.std s4 2) 2000000
      = 500000 := by
    rw [measuredDuration_of_lt Header.std _ _ (by rw [hlast]; decide) (by rw [hW]; decide),
      hlast]
  have hskip : skipDetected { setTotalTapValues Header.std s4 2 with
      lastTapMS := 2000000
      tapsInChain := (setTotalTapValues Header.std s4 2).tapsInChain + 1 } 500000 = false := by
    apply skipDetected_false_of_le
    show ((500000 : ℕ) : ℚ) ≤ ((setTotalTapValues Header.std s4 2).beatLengthMS : ℚ)
      * (setTotalTapValues Header.std s4 2).skippedTapThresholdLow
    rw [hB, hlo]
    norm_num
  have hstored : storedDuration Header.std (setTotalTapValues Header.std s4 2) 2000000
      = 500000 := by
    simp only [storedDuration, hmeas, hskip]
    rfl
  obtain ⟨s5, h5, hinv5⟩ := runaway_step 3 _ (by decide) (by decide) hinv
  have h5a : addTapToChain Header.std (setTotalTapValues Header.std s4 2) 2000000
      = some s5 := by
    have h := h5
    simp only [tap, hact, if_true] at h
    exact h
  obtain ⟨hlt, avg, -, -, heq⟩ :=
    addTapToChain_next_some Header.std _ s5 2000000 (by rw [htc]; decide) h5a
  obtain ⟨-, -, hidx5, hN5, -, -, -, -, -, -, -⟩ := hinv5
  refine ⟨s4, s5, h4, hidx3, hN, htc, hmeas, h5a, ?_, ?_, hN5, hidx5, ?_⟩
  · rw [heq]
    show ((setTotalTapValues Header.std s4 2).tapDurations.set
      (setTotalTapValues Header.std s4 2).tapDurationIndex
      (storedDuration Header.std (setTotalTapValues Header.std s4 2) 2000000))[3]? = _
    rw [hstored, hidx3, List.getElem?_set_self (by rw [hlen]; decide)]
  · rw [heq]
    show skipDetected { setTotalTapValues Header.std s4 2 with
      lastTapMS := 2000000
      tapsInChain := (setTotalTapValues Header.std s4 2).tapsInChain + 1 }
      (measuredDuration Header.std (setTotalTapValues Header.std s4 2) 2000000) = false
    rw [hmeas]
    exact hskip
  · rw [hidx5, hidx3, hN]
    decide

/-- C18: the write index leaves the ring buffer. From the default state at 120 BPM, taps
at 0, 500_000, 1_000_000, 1_500_000 leave `tapDurationIndex = 3`; `setTotalTapValues(2)`
then makes `totalTapValues = 2` and leaves the index at 3. The index never equals
`totalTapValues` again: seventeen more taps 500_000 µs apart take it to 20, the size of
`tapDurations`, and the next tap stores outside the array. -/
theorem write_index_escapes :
    ∃ s4 s21, tapAll Header.std (defaults 500000 120) [0, 500000, 1000000, 1500000] = some s4
      ∧ s4.tapDurationIndex = 3 ∧ s4.totalTapValues = 5
      ∧ (setTotalTapValues Header.std s4 2).totalTapValues = 2
      ∧ (setTotalTapValues Header.std s4 2).tapDurationIndex = 3
      ∧ tapAll Header.std (setTotalTapValues Header.std s4 2)
          [2000000, 2500000, 3000000, 3500000, 4000000, 4500000, 5000000, 5500000, 6000000,
            6500000, 7000000, 7500000, 8000000, 8500000, 9000000, 9500000, 10000000] = some s21
      ∧ s21.tapDurationIndex = 20 ∧ s21.totalTapValues = 2 ∧ s21.tapDurations.length = 20
      ∧ tap Header.std s21 10500000 = none := by
  obtain ⟨s4, h4, hidx, hN, hinv⟩ := runaway_start
  obtain ⟨s21, h21, hinv21⟩ := runaway_run 17 3 _ (by decide) (by decide) hinv
  have hinv21' := hinv21
  obtain ⟨-, -, hidx21, hN21, -, hlen21, -, -, -, -, -⟩ := hinv21'
  exact ⟨s4, s21, h4, hidx, hN, rfl, hinv.2.2.1, h21, hidx21, hN21, hlen21,
    runaway_out_of_bounds s21 hinv21⟩
